import Mathlib

/-!
Verification development for the oxcart chunk-construction pipeline.

This file gives a shallow embedding, in Lean 4, of the core transformation code of
the repository:

* `dolphin_transformer.py` — the element-to-chunk mapper
  (`transform_dolphin_to_oxcart_preserving_labels`) together with its helpers
  (`_validate_html_table`, `_table_to_md_tsv_and_sentences`, `_simplify_html_table`,
  `_normalize_box`, `_group_small_chunks`, `_can_merge_chunks`, `_estimate_sub_bbox`,
  `_split_long_paragraph`, `_validate_and_enhance_chunks`);
* `chunk_optimizer.py` — the external RAG optimizer
  (`normalize_bbox_coordinates`, `calculate_spatial_distance`, `is_same_line`,
  `should_group_chunks`, `classify_chunk_type_enhanced`, `group_chunks_contextually`,
  `merge_chunks`, `optimize_chunks_for_rag`, `split_long_chunk`);
* `analyze_json_comparison.py` — the comparison engine
  (`analyze_json_structure`, `compare_structures` and the similarity score of `main`).

Modelling conventions, stated once here and referenced below:

* Python strings are modelled as `List Char` (named `Str`).  Python regular
  expressions used by the source are few and fixed; each is implemented as an
  explicit scanner with the same matching semantics (leftmost, non-overlapping,
  lazy bodies, case-insensitive where the source passes `re.I`, `.` not matching
  a newline unless the source passes `re.S`).
* Python numbers (floats produced by divisions and `round`) are modelled as `ℚ`.
  `round(x, n)` is modelled as exact half-to-even rounding at `n` decimal digits,
  which agrees with CPython on every value whose decimal expansion is exact in
  binary or appears in the theorems below.
* Python dicts holding chunk data are modelled as structures typed after the
  data model of the code: every chunk built by the source has exactly one
  grounding entry, a `[start, end]` reading-order range, and a metadata dict; the
  structures make those shapes explicit.  Keys that the source sets to `None`
  and keys it leaves absent are both modelled as `Option.none`.
* Functions that loop with a cursor that can jump forward are written with an
  explicit fuel argument (always called with fuel larger than the list length);
  this is only a termination device and does not change the computed value.
* Python exceptions that can escape `transform_dolphin_to_oxcart_preserving_labels`
  are modelled with `Except String`; code whose exceptions are caught locally by
  the source (the pandas table parse, the `page_dims_provider` call, the whole
  external-optimizer call) is modelled by its caught behaviour.
* The pandas calls `pd.read_html` / `to_markdown` / `to_csv` are an external
  library, not source of this repository; they are abstracted as an oracle
  (`DF`, `PandasOracle`) supplied in the configuration.  All theorems about
  tables hold for every oracle.
-/

set_option maxHeartbeats 1000000
set_option synthInstance.maxSize 2000
set_option synthInstance.maxHeartbeats 1000000
set_option maxRecDepth 4000

/-- Python strings, modelled as lists of characters. -/
abbrev Str := List Char

/-- The Python whitespace class: the characters matched by `\s` and stripped by
`str.strip()` for ASCII text. -/
def pyIsSpace (c : Char) : Bool :=
  c = ' ' ∨ c = '\t' ∨ c = '\n' ∨ c = '\r' ∨ c = '\x0b' ∨ c = '\x0c'

/-- Python `str.strip()`: drop leading and trailing whitespace. -/
def pyStrip (s : Str) : Str :=
  ((s.dropWhile pyIsSpace).reverse.dropWhile pyIsSpace).reverse

/-- ASCII lower-casing of one character, the effect of Python `str.lower()` on
the label/tag alphabet used by the source. -/
def lowChar (c : Char) : Char := c.toLower

/-- Python `str.lower()`. -/
def pyLower (s : Str) : Str := s.map lowChar

/-- Whether `pat` occurs at the start of `s`, case-insensitively. -/
def startsWithCI (pat s : Str) : Bool := List.isPrefixOf (pyLower pat) (pyLower s)

/-- Python `sub in s` (substring containment); also the scanner base for
counting occurrences. -/
def strContains : Str → Str → Bool
  | _, [] => true
  | [], _ => false
  | c :: rest, pat => if List.isPrefixOf pat (c :: rest) then true else strContains rest pat

/-- Python `s.count(sub)` for a non-empty pattern: number of non-overlapping
occurrences, scanning left to right (fuel-driven). -/
def strCountGo : Nat → Str → Str → Nat
  | 0, _, _ => 0
  | _ + 1, _, [] => 0
  | _ + 1, [], _ => 0
  | fuel + 1, c :: rest, pat =>
      if List.isPrefixOf pat (c :: rest) then
        1 + strCountGo fuel (List.drop (pat.length - 1) rest) pat
      else strCountGo fuel rest pat

/-- Python `s.count(sub)`. -/
def strCount (s pat : Str) : Nat := strCountGo (s.length + 1) s pat

/-- Python `str.replace(a, b)` specialised to single characters, as used by the
fallback table renderer (`\t`/`\n` → space). -/
def replaceChar (a b : Char) (s : Str) : Str := s.map (fun c => if c = a then b else c)

/-- Python `str.replace("|", "\\|")`, the pipe escaping of the fallback
markdown renderer. -/
def escapePipes : Str → Str
  | [] => []
  | c :: rest => if c = '|' then '\\' :: '|' :: escapePipes rest else c :: escapePipes rest

/-- Python `str.isupper()` on ASCII text: at least one cased character and no
lowercase character. -/
def pyIsUpper (s : Str) : Bool :=
  s.any (fun c => c.isUpper ∨ c.isLower) ∧ s.all (fun c => ¬ c.isLower)

/-- Python `"sep".join(parts)` with a one-character separator. -/
def joinSep (sep : Char) : List Str → Str
  | [] => []
  | [x] => x
  | x :: y :: rest => x ++ sep :: joinSep sep (y :: rest)

/-- Python `" ".join(parts)`. -/
def joinSpace : List Str → Str := joinSep ' '

/-- Collapse runs of whitespace into single `' '` characters (`re.sub(r"\s+", " ", ·)`
restricted to strings with no leading/trailing whitespace; the flag records
whether the previous character was whitespace). -/
def collapseWs : Bool → Str → Str
  | _, [] => []
  | prevSpace, c :: rest =>
      if pyIsSpace c then
        if prevSpace then collapseWs true rest else ' ' :: collapseWs true rest
      else c :: collapseWs false rest

/-- The whitespace normalisation `re.sub(r"\s+", " ", (text or "").strip())`
performed by `_split_long_paragraph`. -/
def normWs (s : Str) : Str := collapseWs false (pyStrip s)

/-- Whether a character ends a sentence for the splitting regexes
`(?<=[\.!?])\s+` and `(?<=[.!?])\s+`. -/
def isSentEnd (c : Char) : Bool := c = '.' ∨ c = '!' ∨ c = '?'

/-- Whether the last character read (head of the reversed accumulator) ends a
sentence. -/
def headSentEnd : Str → Bool
  | [] => false
  | p :: _ => isSentEnd p

/-- One step of `re.split(r"(?<=[.!?])\s+", s)`: walk the string keeping the
current sentence reversed in `cur`; a whitespace run preceded by `.`/`!`/`?`
is a boundary and is consumed entirely.  Fuel-driven (the boundary step skips
the whole whitespace run). -/
def splitSentsGo : Nat → Str → Str → List Str
  | 0, cur, _ => [cur.reverse]
  | _ + 1, cur, [] => [cur.reverse]
  | fuel + 1, cur, c :: rest =>
      if pyIsSpace c ∧ headSentEnd cur then
        cur.reverse :: splitSentsGo fuel [] (rest.dropWhile pyIsSpace)
      else
        splitSentsGo fuel (c :: cur) rest

/-- Python `re.split(r"(?<=[.!?])\s+", s)`. -/
def splitSents (s : Str) : List Str := splitSentsGo (s.length + 1) [] s

/-- Python `str.split()` (split on whitespace runs, no empty parts), used by
`_estimate_sub_bbox`. -/
def pySplitWs : Nat → Str → List Str
  | 0, _ => []
  | _ + 1, [] => []
  | fuel + 1, s =>
      let s1 := s.dropWhile pyIsSpace
      match s1 with
      | [] => []
      | _ :: _ =>
          let w := s1.takeWhile (fun c => ¬ pyIsSpace c)
          w :: pySplitWs fuel (s1.dropWhile (fun c => ¬ pyIsSpace c))

/-- Python `str.split()` wrapper with adequate fuel. -/
def pyWords (s : Str) : List Str := pySplitWs (s.length + 1) s

/-- Decimal digits of a natural number, as characters. -/
def natStr (n : Nat) : Str := Nat.toDigits 10 n

/-- Python `str(int)`. -/
def intStr (i : Int) : Str := if i < 0 then '-' :: natStr i.natAbs else natStr i.natAbs

/-- Python `f"{i:03d}"`: zero-pad to total width 3, the sign counting toward
the width. -/
def pad3 (i : Int) : Str :=
  let d := natStr i.natAbs
  if i < 0 then '-' :: (List.replicate (2 - d.length) '0' ++ d)
  else List.replicate (3 - d.length) '0' ++ d

/-- Floor of a rational (numerator floor-divided by denominator); kernel-friendly
form of `⌊q⌋`. -/
def ratFloor (q : ℚ) : ℤ := q.num.fdiv q.den

/-- Python `round(x, prec)` on exact values: half-to-even rounding at `prec`
decimal digits. -/
def pyRound (prec : Nat) (q : ℚ) : ℚ :=
  let m : ℚ := (10 : ℚ) ^ prec
  let scaled := q * m
  let f : ℤ := ratFloor scaled
  let frac := scaled - (f : ℚ)
  let n : ℤ :=
    if frac < 1/2 then f
    else if 1/2 < frac then f + 1
    else if f % 2 = 0 then f else f + 1
  (n : ℚ) / m

/-!
HTML scanners.  The source uses four fixed regular expressions on table HTML:
`<tr[^>]*>(.*?)</tr>` and `<t[dh][^>]*>(.*?)</t[dh]>` with `re.I | re.S`
(`re.findall`, leftmost non-overlapping matches), `re.sub(r"<.*?>", "", cell)`
with no flags (`.` does not cross newlines), and `re.search(r"<table[^>]*>", html, re.I)`.
Each is implemented below with exactly those semantics.
-/

/-- Case-insensitive character equality. -/
def ciEq (a b : Char) : Bool := lowChar a = lowChar b

/-- Does `pat` occur (case-insensitively) as a prefix of `s`? -/
def ciPrefix : Str → Str → Bool
  | [], _ => true
  | _ :: _, [] => false
  | p :: ps, c :: cs => ciEq p c ∧ ciPrefix ps cs

/-- Find the first index at which one of `closers` occurs case-insensitively;
returns the capture before it and the remainder after it. -/
def findCloser (closers : List Str) : Nat → Str → Option (Str × Str)
  | 0, _ => none
  | _ + 1, [] => none
  | fuel + 1, c :: rest =>
      match closers.find? (fun p => ciPrefix p (c :: rest)) with
      | some p => some ([], List.drop (p.length - 1) rest)
      | none =>
          match findCloser closers fuel rest with
          | some (cap, rem) => some (c :: cap, rem)
          | none => none

/-- Attempt a match of `<NAME[^>]*>(.*?)</CLOSER>` at the head of `s`, where
`opens` lists the accepted (case-insensitive) opening names (after `<`) and
`closers` the accepted full closing tags.  `[^>]*>` consumes up to and
including the first `>`; the lazy body ends at the first closing tag.
Returns the capture and the remainder after the match. -/
def matchTagAt (opens : List Str) (closers : List Str) (s : Str) : Option (Str × Str) :=
  match s with
  | [] => none
  | '<' :: rest =>
      if opens.any (fun o => ciPrefix o rest) then
        -- consume the rest of the opening tag: `[^>]*` then a mandatory `>`
        let afterName := rest
        let attrs := afterName.takeWhile (fun c => ¬ (c = '>'))
        match afterName.drop attrs.length with
        | '>' :: body => findCloser closers (body.length + 1) body
        | _ => none
      else none
  | _ :: _ => none

/-- `re.findall` driver: scan left to right, at each position attempt a match;
on success emit the capture and continue after the match, otherwise advance one
character. -/
def scanTags (opens closers : List Str) : Nat → Str → List Str
  | 0, _ => []
  | _ + 1, [] => []
  | fuel + 1, s@(_ :: rest) =>
      match matchTagAt opens closers s with
      | some (cap, rem) => cap :: scanTags opens closers fuel rem
      | none => scanTags opens closers fuel rest

/-- Python `re.findall(r"<tr[^>]*>(.*?)</tr>", s, re.I | re.S)`. -/
def findTrRows (s : Str) : List Str :=
  scanTags ["tr".data] ["</tr>".data] (s.length + 1) s

/-- Python `re.findall(r"<t[dh][^>]*>(.*?)</t[dh]>", s, re.I | re.S)`. -/
def findCells (s : Str) : List Str :=
  scanTags ["td".data, "th".data] ["</td>".data, "</th>".data] (s.length + 1) s

/-- Python `re.sub(r"<.*?>", "", s)` with no flags: remove every `<...>` whose
body contains no newline; a `<` with no such closing `>` is kept. -/
def stripTagsGo : Nat → Str → Str
  | 0, s => s
  | _ + 1, [] => []
  | fuel + 1, c :: rest =>
      if c = '<' then
        let body := rest.takeWhile (fun d => ¬ (d = '>') ∧ ¬ (d = '\n'))
        match rest.drop body.length with
        | '>' :: rem => stripTagsGo fuel rem
        | _ => c :: stripTagsGo fuel rest
      else c :: stripTagsGo fuel rest

/-- Python `re.sub(r"<.*?>", "", s)`. -/
def stripTags (s : Str) : Str := stripTagsGo (s.length + 1) s

/-- Python `re.search(r"<table[^>]*>", s, re.I) is not None`: a case-insensitive
`<table` with a `>` somewhere after the name. -/
def hasTableTag : Str → Bool
  | [] => false
  | c :: rest =>
      if c = '<' ∧ ciPrefix "table".data rest then
        (rest.drop 5).any (fun d => d = '>')
      else hasTableTag rest

/-- Largest multiplicity of an element of `l` (`Counter(l).most_common(1)[0][1]`). -/
def maxMult (l : List Str) : Nat := (l.map (fun x => l.count x)).foldr max 0

/-- `_validate_html_table` (dolphin_transformer.py): structural validation gate
for table HTML.  Rejects empty/short input, missing `<table>` tag, more than
200 or fewer than 2 rows, more than 1000 cells, over 70 percent repeated cell
content, or over 80 percent empty cells. -/
def validate_html_table (html : Str) : Bool :=
  if html = [] ∨ (pyStrip html).length < 20 then false
  else if ¬ hasTableTag html then false
  else
    let rows := findTrRows html
    if rows.length > 200 then false
    else if rows.length < 2 then false
    else
      let cells := findCells html
      if cells.length > 1000 then false
      else
        let cleaned := (cells.filter (fun c => ¬ (pyStrip c = []))).map
          (fun c => pyStrip (stripTags c))
        if ¬ (cleaned = []) ∧ maxMult cleaned * 10 > 7 * cleaned.length then false
        else
          let emptyCells := (cleaned.filter (fun c => c = [] ∨ c = "nan".data)).length
          if emptyCells * 10 > 8 * max 1 cleaned.length then false
          else true

/-- Python `"sep".join(parts)` for a multi-character separator. -/
def joinStrSep (sep : Str) : List Str → Str
  | [] => []
  | [x] => x
  | x :: y :: rest => x ++ sep ++ joinStrSep sep (y :: rest)

/-- The non-empty, tag-stripped, truncated cells of one row, as extracted by
both `_simplify_html_table` (truncation 80) and the fallback parser of
`_table_to_md_tsv_and_sentences` (truncation 100). -/
def rowCells (trunc : Nat) (row : Str) : List Str :=
  ((findCells row).map (fun c => (pyStrip (stripTags c)).take trunc)).filter
    (fun c => ¬ (c = []))

/-- `_simplify_html_table` (dolphin_transformer.py): last-resort plain-text
rendering.  Extract the rows, reject if none or more than 50, render the first
20 rows that have between 1 and 8 non-empty cells as `Headers: ...` /
`Row i: ...` lines, require at least two such lines, and truncate the result
at 1500 characters.  `simpRow` renders one (index, row) pair. -/
def simpRow (i : Nat) (row : Str) : Option Str :=
  let cells := rowCells 80 row
  if ¬ (cells = []) ∧ cells.length ≤ 8 then
    if i = 0 then some ("Headers: ".data ++ joinStrSep " | ".data cells)
    else some ("Row ".data ++ natStr i ++ ": ".data ++ joinStrSep " | ".data cells)
  else none

def simplify_html_table (html : Str) : Str :=
  if html = [] ∨ (pyStrip html).length < 20 then []
  else
    let rows := findTrRows html
    if rows = [] ∨ rows.length > 50 then []
    else
      let simplified := (rows.take 20).enum.filterMap (fun ri => simpRow ri.1 ri.2)
      if simplified.length ≥ 2 then
        let result := joinStrSep "\n".data simplified
        if result.length > 1500 then result.take 1500 ++ "\n... (truncated)".data
        else result
      else []

/-!
The table converter `_table_to_md_tsv_and_sentences`.  The pandas parse
(`pd.read_html`, `to_markdown`, `to_csv`) is an external library abstracted by
`DF`/`PandasOracle`: the oracle returns `none` when `pd.read_html` raises (or
pandas is unavailable, or no table is parsed), and otherwise supplies the
parsed frame with abstract markdown/csv renderings.  Every raise inside the
`try` block routes to the same fallback parser, which is modelled concretely.
-/

/-- Abstraction of a parsed `pandas.DataFrame`: the stringified column labels,
the stringified cell rows, the result of `to_markdown` (`none` when the method
is unavailable or raises) and the result of `to_csv`. -/
structure DF where
  cols : List Str
  rows : List (List Str)
  toMarkdown : Option Str
  toCsv : Str

/-- The behaviour of `pd.read_html` on a given HTML string: `none` when it
raises or yields no table. -/
abbrev PandasOracle := Str → Option DF

/-- Result dictionary of `_table_to_md_tsv_and_sentences`. -/
structure ConvResult where
  markdown : Option Str
  tsv : Option Str
  headers : List Str
  row_sentences : List Str
deriving DecidableEq

/-- The all-empty result returned on rejection. -/
def emptyConv : ConvResult := ⟨none, none, [], []⟩

/-- Prefix a sentence with the optional context title (`f"{context_title} — "`). -/
def withTitle (contextTitle : Option Str) (sent : Str) : Str :=
  match contextTitle with
  | some t => t ++ " — ".data ++ sent
  | none => sent

/-- The strict fallback parser of `_table_to_md_tsv_and_sentences` (the body of
its `except` branch): regex row/cell extraction with caps of 50 rows scanned,
10 columns, 29 data rows retained, 20 rows rendered to markdown, 400-char
sentences, 5000-char TSV and 6000-char markdown.  `fbRow` extracts the usable
cells of one row. -/
def fbRow (r : Str) : Option (List Str) :=
  let cells := rowCells 100 r
  if ¬ (cells = []) ∧ cells.length ≤ 10 then some cells else none

def tableFallback (contextTitle : Option Str) (html : Str) : ConvResult :=
  let rows := findTrRows html
  if rows.length > 50 then emptyConv
  else
    let simple_rows := (rows.take 50).filterMap fbRow
    if simple_rows.length < 2 then emptyConv
    else
      let headers := (simple_rows.headD []).take 10
      let data_rows := (simple_rows.drop 1).take 29
      if headers = [] ∨ headers.all (fun h => pyStrip h = []) then emptyConv
      else
        let padTo := fun (r : List Str) =>
          let r_clean := r.map (fun c => pyStrip (replaceChar '\n' ' ' (replaceChar '\t' ' ' c)))
          (r_clean ++ List.replicate headers.length ([] : Str)).take headers.length
        let tsv_lines := joinSep '\t' headers :: data_rows.map (fun r => joinSep '\t' (padTo r))
        let row_sentences := data_rows.filterMap (fun r =>
          let parts := (headers.zip (padTo r)).filterMap (fun cv =>
            if ¬ (cv.2 = []) ∧ ¬ (pyStrip cv.2 = []) then
              some (cv.1 ++ ": ".data ++ (pyStrip cv.2).take 80)
            else none)
          if parts = [] then none
          else
            let sent := joinStrSep ", ".data parts
            let sent2 := if sent.length > 400 then sent.take 400 ++ "...".data else sent
            some (withTitle contextTitle sent2))
        let tsv0 := joinStrSep "\n".data tsv_lines
        let tsv := if tsv0.length > 5000 then tsv0.take 5000 ++ "\n... (truncated)".data else tsv0
        let markdown :=
          if ¬ (headers = []) ∧ data_rows.length > 0 then
            let sepRow := "| ".data ++ joinStrSep " | ".data (headers.map (fun _ => "---".data)) ++ " |".data
            let md_head := "| ".data ++ joinStrSep " | ".data (headers.map (fun h => h.take 30)) ++ " |".data
            let md_rows := (data_rows.take 20).map (fun r =>
              let r_clean := r.map (fun c => (pyStrip (escapePipes c)).take 30)
              let padded := (r_clean ++ List.replicate headers.length ([] : Str)).take headers.length
              "| ".data ++ joinStrSep " | ".data padded ++ " |".data)
            let md0 := joinStrSep "\n".data (md_head :: sepRow :: md_rows)
            some (if md0.length > 6000 then md0.take 6000 ++ "\n... (truncated)".data else md0)
          else none
        ⟨markdown, some tsv, headers, row_sentences⟩

/-- `_table_to_md_tsv_and_sentences` (dolphin_transformer.py): validate, then
take the pandas path (shape cap 100 rows and 25 columns, 200-char cells,
50-char headers, 8000-char markdown and TSV truncation, up to 50 row
sentences of at most 500 chars) and on any pandas-path raise fall back to
`tableFallback`. -/
def table_to_md_tsv_and_sentences (oracle : PandasOracle) (html : Str)
    (contextTitle : Option Str) : ConvResult :=
  if ¬ validate_html_table html then emptyConv
  else
    match oracle html with
    | none => tableFallback contextTitle html
    | some df =>
        if df.rows.length > 100 ∨ df.cols.length > 25 then tableFallback contextTitle html
        else
          let headers := df.cols.map (fun c => c.take 50)
          if headers.length = 0 ∨ headers.all (fun h => pyStrip h = []) then
            tableFallback contextTitle html
          else
            let cellRows := df.rows.map (fun r => r.map (fun v => v.take 200))
            let markdown := df.toMarkdown.map (fun m =>
              if m.length > 8000 then m.take 8000 ++ "\n... (truncated)".data else m)
            let tsv :=
              if df.toCsv.length > 8000 then df.toCsv.take 8000 ++ "\n... (truncated)".data
              else df.toCsv
            let row_sentences := (cellRows.take 50).filterMap (fun row =>
              let parts := (df.cols.zip row).filterMap (fun cv =>
                let val := pyStrip cv.2
                if ¬ (val = []) ∧ ¬ (val = "nan".data) then
                  some (cv.1 ++ ": ".data ++
                    (if val.length > 100 then val.take 100 ++ "...".data else val))
                else none)
              if parts = [] then none
              else
                let sent := joinStrSep ", ".data parts
                let sent2 := if sent.length > 500 then sent.take 500 ++ "...".data else sent
                some (withTitle contextTitle sent2))
            ⟨markdown, some tsv, headers, row_sentences⟩

/-- Normalised bounding box in relative coordinates, the dict
`\x7b l, t, r, b \x7d` built by `_normalize_box`. -/
structure Box where
  l : ℚ
  t : ℚ
  r : ℚ
  b : ℚ
deriving DecidableEq

/-- `_normalize_box` (dolphin_transformer.py).  `bbox = []` models both a
missing (`None`) and an empty bbox (both falsy); `wh = none` models an absent
provider or one that raised.  A falsy bbox or unknown/zero page dimension
yields `none`; a four-element bbox is divided through by the page dimensions
and rounded to six decimals (the source does not clamp here); any other
non-empty bbox makes the 4-way unpacking raise, which the source does not
catch. -/
def normalize_box (bbox : List ℚ) (wh : Option (ℤ × ℤ)) : Except String (Option Box) :=
  match bbox, wh with
  | [], _ => .ok none
  | _, none => .ok none
  | bs, some (w, h) =>
      if w = 0 ∨ h = 0 then .ok none
      else
        match bs with
        | [x1, y1, x2, y2] =>
            .ok (some ⟨pyRound 6 (x1 / (w : ℚ)), pyRound 6 (y1 / (h : ℚ)),
                       pyRound 6 (x2 / (w : ℚ)), pyRound 6 (y2 / (h : ℚ))⟩)
        | _ => .error "ValueError: bbox does not unpack into x1, y1, x2, y2"

instance exceptDecEq {α β : Type} [DecidableEq α] [DecidableEq β] :
    DecidableEq (Except α β)
  | .error a, .error b =>
      if h : a = b then .isTrue (by rw [h])
      else .isFalse (by intro hh; cases hh; exact h rfl)
  | .error _, .ok _ => .isFalse (by intro hh; cases hh)
  | .ok _, .error _ => .isFalse (by intro hh; cases hh)
  | .ok a, .ok b =>
      if h : a = b then .isTrue (by rw [h])
      else .isFalse (by intro hh; cases hh; exact h rfl)

/-!
The paragraph splitter `_split_long_paragraph` and the sub-bbox estimator
`_estimate_sub_bbox`.
-/

/-- The greedy inner loop of `_split_long_paragraph`: starting at sentence
index `j` with accumulated size `total`, keep taking sentences while the
accumulated size (one separator per sentence) stays within `maxChars`;
returns the stopping index. -/
def greedyEnd (maxChars : Nat) (sents : List Str) : Nat → Nat → Nat → Nat
  | 0, j, _ => j
  | fuel + 1, j, total =>
      match sents[j]? with
      | some s =>
          if total + s.length + 1 ≤ maxChars then
            greedyEnd maxChars sents fuel (j + 1) (total + s.length + 1)
          else j
      | none => j

/-- The outer loop of `_split_long_paragraph`: pack sentences greedily from
index `i`; when not even one sentence fits, force a single-sentence part;
resume at `max(i+1, j-overlap)`. -/
def packFrom (maxChars ov : Nat) (sents : List Str) : Nat → Nat → List Str
  | 0, _ => []
  | fuel + 1, i =>
      if i < sents.length then
        let j := greedyEnd maxChars sents (sents.length + 1) i 0
        let acc := if j = i then (sents.drop i).take 1 else (sents.drop i).take (j - i)
        let j2 := if j = i then i + 1 else j
        joinSpace acc :: packFrom maxChars ov sents fuel (max (i + 1) (j2 - ov))
      else []

/-- `_split_long_paragraph` (dolphin_transformer.py): normalise whitespace; a
text within `maxChars` is returned whole (or `[]` when empty); otherwise split
into sentences and pack them greedily with `ov` sentences of overlap between
consecutive parts. -/
def split_long_paragraph (text : Str) (maxChars : Nat := 1200) (overlapSents : Nat := 1) :
    List Str :=
  let txt := normWs text
  if txt.length ≤ maxChars then (if txt = [] then [] else [txt])
  else
    let sents := splitSents txt
    packFrom maxChars overlapSents sents (sents.length + 1) 0

/-- `_estimate_sub_bbox` (dolphin_transformer.py): proportional vertical
sub-box for the `part_index`-th part of a split paragraph.  The relative start
is the fraction of the text length covered by roughly the first
`part_index * 20` words; if the estimated top reaches the estimated bottom, a
minimum height of 0.01 is forced. -/
def estimate_sub_bbox (original : Box) (text_part full_text : Str) (part_index : Nat) : Box :=
  if text_part = [] ∨ full_text = [] then original
  else
    let part_length : ℚ := (text_part.length : ℚ)
    let full_length : ℚ := (full_text.length : ℚ)
    let bbox_height := original.b - original.t
    let wordLens := ((pyWords full_text).take (part_index * 20)).map List.length
    let relative_start := ((wordLens.sum : ℚ)) / full_length
    let relative_size := part_length / full_length
    let t2 := original.t + relative_start * bbox_height
    let b2 := min original.b (original.t + (relative_start + relative_size) * bbox_height)
    if t2 ≥ b2 then ⟨original.l, t2, original.r, t2 + 1/100⟩
    else ⟨original.l, t2, original.r, b2⟩

/-!
The chunk data model.  Every chunk dict built by the source has exactly one
grounding entry and a two-element `reading_order_range`; the structures below
type those shapes.  Metadata keys that a given chunk kind does not carry are
`none`.
-/

/-- One grounding entry `\x7b page, box \x7d`. -/
structure Grounding where
  page : ℤ
  box : Option Box
deriving DecidableEq

/-- The chunk metadata dict.  `headers` is `some` exactly for table-derived
chunks (key present), mirroring key presence in the source dicts. -/
structure Metadata where
  labels : List Str
  reading_order_range : ℤ × ℤ
  part_index : Option Nat := none
  quality_score : Option ℚ := none
  figure_path : Option Str := none
  table_format : Option Str := none
  headers : Option (List Str) := none
  n_rows : Option Nat := none
  parent_table_chunk_id : Option Str := none
  row_index_range : Option (Nat × Nat) := none
  combined_chunks : Option Nat := none
deriving DecidableEq

/-- A chunk. -/
structure Chunk where
  chunk_id : Str
  chunk_type : Str
  text : Str
  grounding : Grounding
  metadata : Metadata
deriving DecidableEq

/-- `_can_merge_chunks` (dolphin_transformer.py): same type, type not in the
banned set, same page, and reading-order gap (next start minus current end)
at most 5.  The source guards the gap check with `if ro1 and ro2`; ranges are
always present (two-element) in the data model, so the guard always holds. -/
def can_merge_chunks (c1 c2 : Chunk) : Bool :=
  if ¬ (c1.chunk_type = c2.chunk_type) then false
  else if c1.chunk_type = "table".data ∨ c1.chunk_type = "figure".data ∨
          c1.chunk_type = "caption".data ∨ c1.chunk_type = "table_row".data then false
  else if ¬ (c1.grounding.page = c2.grounding.page) then false
  else
    let ro1 := c1.metadata.reading_order_range
    let ro2 := c2.metadata.reading_order_range
    if ro2.1 - ro1.2 > 5 then false else true

/-- Inner absorption loop of `_group_small_chunks`: starting from the original
chunk `cur` (whose fields the merge test reads, unmutated, exactly as the
source tests `current_chunk` before updating it), accumulate following chunks
while the loop conditions hold.  Returns the combined text, combined box,
final reading-order end, number of chunks combined, and the unconsumed rest. -/
def absorbSmall (minSize maxComb : Nat) (cur : Chunk) :
    Str → Option Box → ℤ → Nat → List Chunk → Str × Option Box × ℤ × Nat × List Chunk
  | ctext, cbox, roEnd, count, [] => (ctext, cbox, roEnd, count, [])
  | ctext, cbox, roEnd, count, nxt :: rest =>
      if ctext.length < maxComb ∧ nxt.text.length < minSize * 2 then
        if can_merge_chunks cur nxt ∧ (ctext ++ ' ' :: nxt.text).length ≤ maxComb then
          let ctext2 := pyStrip (ctext ++ ' ' :: nxt.text)
          let cbox2 := match cbox, nxt.grounding.box with
            | some b1, some b2 =>
                some (⟨min b1.l b2.l, min b1.t b2.t, max b1.r b2.r, max b1.b b2.b⟩ : Box)
            | _, _ => cbox
          absorbSmall minSize maxComb cur ctext2 cbox2
            nxt.metadata.reading_order_range.2 (count + 1) rest
        else (ctext, cbox, roEnd, count, nxt :: rest)
      else (ctext, cbox, roEnd, count, nxt :: rest)

/-- Outer loop of `_group_small_chunks` (fuel-driven; each step consumes at
least one chunk, so fuel `length + 1` always suffices). -/
def groupSmallGo (minSize maxComb : Nat) : Nat → List Chunk → List Chunk
  | 0, l => l
  | _ + 1, [] => []
  | fuel + 1, c :: rest =>
      if c.text.length ≥ minSize then c :: groupSmallGo minSize maxComb fuel rest
      else
        let roStart := c.metadata.reading_order_range.1
        let r := absorbSmall minSize maxComb c c.text c.grounding.box roStart 1 rest
        let newChunk : Chunk :=
          { c with
            text := r.1
            grounding := match r.2.1 with
              | some b => ⟨c.grounding.page, some b⟩
              | none => c.grounding
            metadata := { c.metadata with
              reading_order_range := (roStart, r.2.2.1)
              combined_chunks := some r.2.2.2.1 } }
        newChunk :: groupSmallGo minSize maxComb fuel r.2.2.2.2

/-- `_group_small_chunks` (dolphin_transformer.py): keep chunks of at least
`minSize` characters as they are; otherwise greedily absorb following small
compatible chunks up to `maxComb` combined characters, recomputing the
enclosing box, the reading-order range and the `combined_chunks` count. -/
def group_small_chunks (chunks : List Chunk) (minSize : Nat := 100) (maxComb : Nat := 1200) :
    List Chunk :=
  groupSmallGo minSize maxComb (chunks.length + 1) chunks

/-- Clamp to the unit interval (`max(0.0, min(1.0, x))`). -/
def clamp01 (q : ℚ) : ℚ := max 0 (min 1 q)

/-- The box repair of `_validate_and_enhance_chunks`: swap `l`/`r` if inverted,
swap `t`/`b` if inverted, then clamp all four coordinates to `[0, 1]`. -/
def repairBox (bx : Box) : Box :=
  let lr := if bx.l > bx.r then (bx.r, bx.l) else (bx.l, bx.r)
  let tb := if bx.t > bx.b then (bx.b, bx.t) else (bx.t, bx.b)
  ⟨clamp01 lr.1, clamp01 tb.1, clamp01 lr.2, clamp01 tb.2⟩

/-- Apply the box repair to a chunk's grounding box, when present. -/
def repairChunk (c : Chunk) : Chunk :=
  match c.grounding.box with
  | some b => { c with grounding := ⟨c.grounding.page, some (repairBox b)⟩ }
  | none => c

/-- The aggregate statistics attached to `extraction_metadata`.  All fields
optional: the validator and the optimizer each set their own keys. -/
structure ExtractionMetadata where
  chunk_count : Option Nat := none
  total_text_length : Option Nat := none
  avg_chunk_length : Option ℚ := none
  median_chunk_length : Option ℚ := none
  max_chunk_length : Option Nat := none
  min_chunk_length : Option Nat := none
  chunk_types : Option (List (Str × Nat)) := none
  quality_issues : Option Nat := none
  validation_applied : Option Bool := none
  optimization_applied : Option Bool := none
  optimization_timestamp : Option Str := none
  original_chunk_count : Option Nat := none
  optimized_chunk_count : Option Nat := none
deriving DecidableEq

/-- The `metadata` dict of the document header. -/
structure DocMeta where
  title : Str
  author : Str
  language : Str
deriving DecidableEq

/-- The OXCART document structure.  `extraction_date` is the injected clock
value (the source stamps `datetime.utcnow()`, which chunk contents never
depend on). -/
structure Document where
  doc_id : Str
  source : Str
  page_count : Nat
  extraction_date : Str
  metadata : DocMeta
  chunks : List Chunk
  markdown : Str
  extraction_metadata : Option ExtractionMetadata
deriving DecidableEq

/-- Insertion-ordered histogram update (`type_counts[t] = type_counts.get(t, 0) + 1`). -/
def bumpCount (ty : Str) : List (Str × Nat) → List (Str × Nat)
  | [] => [(ty, 1)]
  | (k, v) :: rest => if k = ty then (k, v + 1) :: rest else (k, v) :: bumpCount ty rest

/-- `_validate_and_enhance_chunks` (dolphin_transformer.py): with no chunks,
do nothing; otherwise compute the aggregate statistics, count quality issues
(text shorter than 10 or longer than 2000 characters), repair every grounding
box in place, and attach the statistics to `extraction_metadata`. -/
def validate_and_enhance_chunks (doc : Document) : Document :=
  if doc.chunks = [] then doc
  else
    let lengths := doc.chunks.map (fun c => c.text.length)
    let total_chunks := doc.chunks.length
    let total_text := lengths.sum
    let type_counts := doc.chunks.foldl (fun acc c => bumpCount c.chunk_type acc) []
    let quality_issues :=
      (doc.chunks.filter (fun c => c.text.length < 10 ∨ c.text.length > 2000)).length
    let em0 := (doc.extraction_metadata).getD {}
    { doc with
      chunks := doc.chunks.map repairChunk
      extraction_metadata := some { em0 with
        chunk_count := some total_chunks
        total_text_length := some total_text
        avg_chunk_length := some ((total_text : ℚ) / (total_chunks : ℚ))
        max_chunk_length := some (lengths.foldr max 0)
        min_chunk_length := some (lengths.foldr min (lengths.headD 0))
        chunk_types := some type_counts
        quality_issues := some quality_issues
        validation_applied := some true } }

/-!
The external optimizer, `chunk_optimizer.py`.
-/

/-- `normalize_bbox_coordinates` (chunk_optimizer.py): `none` for a falsy or
wrong-length bbox; otherwise divide by the page dimensions and clamp to
`[0, 1]`.  The division is unguarded in the source, so a zero page dimension
raises `ZeroDivisionError`. -/
def normalize_bbox_coordinates (bbox : List ℚ) (page_width page_height : ℤ) :
    Except String (Option Box) :=
  if bbox = [] ∨ ¬ (bbox.length = 4) then .ok none
  else if page_width = 0 ∨ page_height = 0 then .error "ZeroDivisionError: division by zero"
  else
    match bbox with
    | [x1, y1, x2, y2] =>
        .ok (some ⟨clamp01 (x1 / (page_width : ℚ)), clamp01 (y1 / (page_height : ℚ)),
                   clamp01 (x2 / (page_width : ℚ)), clamp01 (y2 / (page_height : ℚ))⟩)
    | _ => .ok none

/-- `is_same_line` (chunk_optimizer.py): vertical centers within the
tolerance. -/
def is_same_line (b1 b2 : Box) (tolerance : ℚ := 1/100) : Bool :=
  |((b1.t + b1.b) / 2) - ((b2.t + b2.b) / 2)| < tolerance

/-- The squared center-to-center distance of `calculate_spatial_distance`
(chunk_optimizer.py).  The source computes `sqrt(dx^2 + dy^2)` and callers only
compare it against the constant 0.05; both sides being non-negative, that
comparison is equivalent to comparing this square against `0.05^2`, which is
how it is used below. -/
def spatial_distance_sq (b1 b2 : Box) : ℚ :=
  let dx := (b1.l + b1.r) / 2 - (b2.l + b2.r) / 2
  let dy := (b1.t + b1.b) / 2 - (b2.t + b2.b) / 2
  dx ^ 2 + dy ^ 2

/-- The caption pattern `re.match(r"^(figure|fig|table|tab)\s*\d+", s)`: one of
the alternatives as a prefix, then optional whitespace, then at least one
digit. -/
def capRegexMatch (s : Str) : Bool :=
  ["figure".data, "fig".data, "table".data, "tab".data].any (fun alt =>
    List.isPrefixOf alt s && digitAfterWs (s.drop alt.length))
  where digitAfterWs (s : Str) : Bool :=
    match s.dropWhile pyIsSpace with
    | c :: _ => c.isDigit
    | [] => false

/-- `classify_chunk_type_enhanced` (chunk_optimizer.py): position-based
classification (margins, header band, footer band) when a box is present, then
content-based classification (caption pattern; short all-caps or
colon-bearing text as header), defaulting to `text`.  The `page_width` /
`page_height` parameters of the source are unused by its body and omitted. -/
def classify_chunk_type_enhanced (text : Str) (bbox : Option Box) : Str :=
  let text_lower := pyStrip (pyLower text)
  let contentBased :=
    if capRegexMatch text_lower then "caption".data
    else if text.length < 50 ∧ (pyIsUpper text ∨ strContains text ":".data) then "header".data
    else "text".data
  match bbox with
  | some bx =>
      if bx.r < 15/100 ∨ bx.l > 85/100 ∨ bx.b < 1/10 ∨ bx.t > 9/10 then "marginalia".data
      else if bx.t < 15/100 ∧ text.length < 100 then "header".data
      else if bx.t > 85/100 ∧ text.length < 100 then "footer".data
      else contentBased
  | none => contentBased

/-- `should_group_chunks` (chunk_optimizer.py): size cap, same type, type not
table/figure/image, same page, both boxes present, and same line or centers
closer than 0.05. -/
def should_group_chunks (c1 c2 : Chunk) (max_combined_length : Nat := 800) : Bool :=
  if c1.text.length + c2.text.length > max_combined_length then false
  else if ¬ (c1.chunk_type = c2.chunk_type) then false
  else if c1.chunk_type = "table".data ∨ c1.chunk_type = "figure".data ∨
          c1.chunk_type = "image".data then false
  else if ¬ (c1.grounding.page = c2.grounding.page) then false
  else
    match c1.grounding.box, c2.grounding.box with
    | some b1, some b2 =>
        if is_same_line b1 b2 then true
        else spatial_distance_sq b1 b2 < (5/100) ^ 2
    | _, _ => false

/-- Python `s.endswith(c)` for a single character. -/
def endsWith (s : Str) (c : Char) : Bool :=
  match s.getLast? with
  | some d => d = c
  | none => false

/-- `merge_chunks` (chunk_optimizer.py): join the stripped texts (space after
sentence-final punctuation, de-hyphenation after a trailing hyphen, space
otherwise), take the enclosing box when both boxes exist, combine the
reading-order ranges and average the quality scores (default 0.5). -/
def merge_chunks (c1 c2 : Chunk) : Chunk :=
  let t1 := pyStrip c1.text
  let t2 := pyStrip c2.text
  let combined :=
    if endsWith t1 '.' ∨ endsWith t1 '!' ∨ endsWith t1 '?' then t1 ++ ' ' :: t2
    else if endsWith t1 '-' then t1.dropLast ++ t2
    else t1 ++ ' ' :: t2
  let grounding2 :=
    match c1.grounding.box, c2.grounding.box with
    | some b1, some b2 =>
        (⟨c1.grounding.page,
          some ⟨min b1.l b2.l, min b1.t b2.t, max b1.r b2.r, max b1.b b2.b⟩⟩ : Grounding)
    | _, _ => c1.grounding
  let m1 := c1.metadata
  let m2 := c2.metadata
  { c1 with
    text := combined
    grounding := grounding2
    metadata := { m1 with
      reading_order_range :=
        (min m1.reading_order_range.1 m2.reading_order_range.1,
         max m1.reading_order_range.2 m2.reading_order_range.2)
      quality_score :=
        some ((m1.quality_score.getD (1/2) + m2.quality_score.getD (1/2)) / 2) } }

/-- Stable insertion into a list sorted by the strict order `lt`: the new
element (earlier in the original list) goes before existing elements with an
equal key, reproducing the stability of Python `sorted`. -/
def insertBy {α : Type} (lt : α → α → Bool) (c : α) : List α → List α
  | [] => [c]
  | x :: xs => if ¬ lt x c then c :: x :: xs else x :: insertBy lt c xs

/-- Stable sort by the strict order `lt` (insertion sort; Python `sorted` is a
stable ascending sort and only stability and the order matter here). -/
def sortBy {α : Type} (lt : α → α → Bool) (l : List α) : List α := l.foldr (insertBy lt) []

/-- The sort key order of `group_chunks_contextually`: by page, then by
reading-order start. -/
def chunkKeyLt (a b : Chunk) : Bool :=
  a.grounding.page < b.grounding.page ∨
    (a.grounding.page = b.grounding.page ∧
     a.metadata.reading_order_range.1 < b.metadata.reading_order_range.1)

/-- Greedy absorption loop of `group_chunks_contextually`: the current chunk
(which grows as it merges) absorbs following chunks while `should_group_chunks`
accepts the pair. -/
def absorbCtx : Chunk → List Chunk → Chunk × List Chunk
  | cur, [] => (cur, [])
  | cur, nxt :: rest =>
      if should_group_chunks cur nxt then absorbCtx (merge_chunks cur nxt) rest
      else (cur, nxt :: rest)

/-- Outer loop of `group_chunks_contextually` (fuel-driven). -/
def groupCtxGo : Nat → List Chunk → List Chunk
  | 0, l => l
  | _ + 1, [] => []
  | fuel + 1, c :: rest =>
      let r := absorbCtx c rest
      r.1 :: groupCtxGo fuel r.2

/-- `group_chunks_contextually` (chunk_optimizer.py): sort by
(page, reading-order start) and run the greedy left-to-right merge. -/
def group_chunks_contextually (chunks : List Chunk) : List Chunk :=
  groupCtxGo (chunks.length + 1) (sortBy chunkKeyLt chunks)

/-- One step of `split_long_chunk`'s sentence accumulator: grow the current
part while it fits, otherwise close it as a copy of the chunk with a
`_split_N` id. -/
def splitStep (chunk : Chunk) (max_length : Nat) (base : Str)
    (st : List Chunk × Str) (sentence : Str) : List Chunk × Str :=
  if (st.2 ++ sentence).length ≤ max_length then
    (st.1, pyStrip (st.2 ++ ' ' :: sentence))
  else
    if ¬ (st.2 = []) then
      (st.1 ++ [{ chunk with
          text := st.2
          chunk_id := base ++ "_split_".data ++ natStr st.1.length }], sentence)
    else (st.1, sentence)

/-- `split_long_chunk` (chunk_optimizer.py): split an over-long chunk on
sentence boundaries, copying the chunk and appending `_split_N` to the id of
each part.  The size test concatenates without a separator while the
accumulator joins with a space and strips, exactly as the source does. -/
def split_long_chunk (chunk : Chunk) (max_length : Nat) : List Chunk :=
  if chunk.text.length ≤ max_length then [chunk]
  else
    let sentences := splitSents chunk.text
    let base := chunk.chunk_id
    let fin := sentences.foldl (splitStep chunk max_length base) ([], [])
    let acc2 :=
      if ¬ (fin.2 = []) then
        fin.1 ++ [{ chunk with
          text := fin.2
          chunk_id := base ++ "_split_".data ++ natStr fin.1.length }]
      else fin.1
    if acc2 = [] then [chunk] else acc2

/-- `statistics.median` on naturals, as ℚ. -/
def pyMedian (l : List Nat) : ℚ :=
  let s := sortBy (fun a b : Nat => a < b) l
  let n := s.length
  if n % 2 = 1 then ((s.getD (n / 2) 0 : Nat) : ℚ)
  else (((s.getD (n / 2 - 1) 0 : Nat) : ℚ) + ((s.getD (n / 2) 0 : Nat) : ℚ)) / 2

/-- `optimize_chunks_for_rag` (chunk_optimizer.py): reclassify every chunk
from its text and box, group contextually, re-split chunks longer than
`max_chunk_length`, and record optimization statistics.  (`target_avg_length`
is accepted and unused, as in the source; step 1 of the source is a
placeholder `pass`.)  `now` is the injected timestamp. -/
def optimize_chunks_for_rag (doc : Document) (now : Str)
    (max_chunk_length : Nat := 800) : Document :=
  let chunks := doc.chunks
  if chunks = [] then doc
  else
    let chunks2 := chunks.map (fun c =>
      { c with chunk_type := classify_chunk_type_enhanced c.text c.grounding.box })
    let grouped := group_chunks_contextually chunks2
    let final := grouped.flatMap (fun c =>
      if c.text.length > max_chunk_length then split_long_chunk c max_chunk_length else [c])
    let lengths : List Nat := final.map (fun c => c.text.length)
    let em0 := doc.extraction_metadata.getD {}
    let em1 : ExtractionMetadata := { em0 with
      optimization_applied := some true
      optimization_timestamp := some now
      original_chunk_count := some chunks.length
      optimized_chunk_count := some final.length }
    let em2 : ExtractionMetadata :=
      if lengths.isEmpty then em1
      else
        { em1 with
          avg_chunk_length := some ((lengths.sum : ℚ) / (lengths.length : ℚ))
          median_chunk_length := some (pyMedian lengths)
          max_chunk_length := some (lengths.foldr max 0)
          min_chunk_length := some (lengths.foldr min (lengths.headD 0)) }
    { doc with chunks := final, extraction_metadata := some em2 }

/-!
`transform_dolphin_to_oxcart_preserving_labels` and its input model.
-/

/-- A page element dict: every access in the source is a `.get` with a
default, so all fields are optional. -/
structure Element where
  label : Option Str := none
  text : Option Str := none
  bbox : Option (List ℚ) := none
  reading_order : Option ℤ := none
  figure_path : Option Str := none
deriving DecidableEq

/-- A page dict. -/
structure PageD where
  page_number : Option ℤ := none
  elements : List Element := []
deriving DecidableEq

/-- One dict in a top-level input list: either a page-like dict (it has a
`page_number` key, which is what the source tests on the first item) or a
plain element dict. -/
inductive RecItem
  | pageItem (p : PageD)
  | elemItem (e : Element)
deriving DecidableEq

/-- The top-level `recognition_results` value: a dict with a `pages` key, a
dict without one, a list of dicts, or anything else (non-dict non-list values
and lists whose first item is not a dict, all of which the source rejects). -/
inductive RecInput
  | dictWithPages (pages : List PageD)
  | dictNoPages
  | listOf (items : List RecItem)
  | otherInput

/-- Read a list item as a page dict (`page.get(...)` on an element dict finds
no `page_number` or `elements` keys). -/
def itemAsPage : RecItem → PageD
  | .pageItem p => p
  | .elemItem _ => {}

/-- Read a list item as an element dict (`el.get(...)` on a page dict finds
none of the element keys). -/
def itemAsElem : RecItem → Element
  | .elemItem e => e
  | .pageItem _ => {}

/-- Top-level shape detection of
`transform_dolphin_to_oxcart_preserving_labels`: a `pages` dict passes its
pages through; a non-empty list whose first item has a `page_number` key is a
page list; a non-empty list of other dicts is wrapped as one synthetic page 1;
everything else (including the empty list) is unrecognized. -/
def shapeOf : RecInput → Option (List PageD)
  | .dictWithPages ps => some ps
  | .dictNoPages => none
  | .listOf [] => none
  | .listOf (item :: rest) =>
      match item with
      | .pageItem _ => some ((item :: rest).map itemAsPage)
      | .elemItem _ => some [⟨some 1, (item :: rest).map itemAsElem⟩]
  | .otherInput => none

/-- The keyword parameters of `transform_dolphin_to_oxcart_preserving_labels`,
with its defaults.  `page_dims` returning `none` covers all of: no provider,
provider raised, provider returned `None`s.  `now` is the injected clock and
`pandas` the pandas behaviour (see the header). -/
structure Config where
  doc_id : Str := "doc".data
  page_dims : ℤ → Option (ℤ × ℤ) := fun _ => none
  exclude_labels : List Str := ["header".data, "foot".data]
  para_max_chars : Nat := 1500
  fuse_figure_and_caption : Bool := true
  table_row_block_size : Option Nat := none
  strict_mode : Bool := true
  optimize_for_rag : Bool := true
  target_avg_length : Nat := 300
  max_chunk_length : Nat := 1200
  now : Str := []
  pandas : PandasOracle := fun _ => none

/-- The fixed `DOLPHIN2TYPE` label-to-type mapping with its `"text"` default. -/
def dolphin2type (label : Str) : Str :=
  if label = "title".data then "title".data
  else if label = "sec".data then "section".data
  else if label = "sub_sec".data then "subsection".data
  else if label = "para".data then "text".data
  else if label = "tab".data then "table".data
  else if label = "fig".data then "figure".data
  else if label = "cap".data then "caption".data
  else if label = "fnote".data then "marginalia".data
  else if label = "header".data then "header".data
  else if label = "foot".data then "marginalia".data
  else "text".data

/-- Chunk id `f"{doc_id}:{pno:03d}:{s}-{e}:{suffix}"`. -/
def mkChunkId (docId : Str) (pno : ℤ) (s e : ℤ) (suffix : Str) : Str :=
  docId ++ ':' :: pad3 pno ++ ':' :: intStr s ++ '-' :: intStr e ++ ':' :: suffix

/-- The blocks `rsents[start:start+eff]` for `start in range(0, len(rsents), eff)`
together with their start indices (`eff ≥ 1`; fuel-driven). -/
def blocksFrom (eff : Nat) : Nat → Nat → List Str → List (Nat × List Str)
  | 0, _, _ => []
  | _ + 1, _, [] => []
  | fuel + 1, start, l => (start, l.take eff) :: blocksFrom eff fuel (start + eff) (l.drop eff)

/-- The `table_row` child chunks of one table (the body of the
`table_row_block_size is not None` branch): only emitted for a row-sentence
count in (3, 30], with the block size capped at 3; a zero block size makes the
source call `range` with step 0, which raises. -/
def tableRowChunks (trbs : Nat) (docId : Str) (pno ro : ℤ) (bbox_norm : Option Box)
    (table_chunk_id : Str) (headers rsents : List Str) :
    Except String (List Chunk) :=
  if ¬ (rsents = []) ∧ rsents.length > 3 ∧ rsents.length ≤ 30 then
    let eff := min trbs 3
    if eff = 0 then .error "ValueError: range() arg 3 must not be zero"
    else
      .ok ((blocksFrom eff (rsents.length + 1) 0 rsents).filterMap
        (fun sb =>
          let start := sb.1
          let block := sb.2
          let block_text := joinSep '\n' block
          if block_text.length > 800 then none
          else if (pyStrip block_text).length < 20 ∨ strCount block_text ":".data < 2 then
            none
          else some ({
            chunk_id := mkChunkId docId pno ro ro ("rows".data ++ natStr start)
            chunk_type := "table_row".data
            text := block_text
            grounding := ⟨pno, bbox_norm⟩
            metadata := {
              labels := ["tab".data, "table_row_sentences".data]
              reading_order_range := (ro, ro)
              parent_table_chunk_id := some table_chunk_id
              row_index_range := some (start, min (start + eff) rsents.length - 1)
              headers := some headers
              quality_score :=
                some (((strCount block_text ":".data + 1 : Nat) : ℚ) /
                      ((block.length : Nat) : ℚ)) } } : Chunk)))
  else .ok []

/-- Emission part of the `tab` branch, after gates and format selection: the
post-selection gates, the main `table` chunk, and the optional `table_row`
chunks via `tableRowChunks`. -/
def processTabEmit (cfg : Config) (pno ro : ℤ) (bbox_norm : Option Box)
    (conv : ConvResult) (table_format main_text : Str) :
    Except String (List Chunk × List Str) :=
  if table_format = "simplified_html".data ∧ main_text = [] then .ok ([], [])
  else if main_text.length > 3000 then .ok ([], [])
  else if conv.headers.length = 0 ∨ (pyStrip main_text).length < 50 then .ok ([], [])
  else
    let table_chunk_id := mkChunkId cfg.doc_id pno ro ro "0".data
    let mainChunk : Chunk := {
        chunk_id := table_chunk_id
        chunk_type := "table".data
        text := main_text
        grounding := ⟨pno, bbox_norm⟩
        metadata := {
          labels := ["tab".data]
          reading_order_range := (ro, ro)
          table_format := some table_format
          headers := some conv.headers
          n_rows := some conv.row_sentences.length } }
    let md := [main_text ++ "\n\n".data]
    match cfg.table_row_block_size with
    | none => .ok ([mainChunk], md)
    | some trbs =>
        match tableRowChunks trbs cfg.doc_id pno ro bbox_norm table_chunk_id
            conv.headers conv.row_sentences with
        | .error e => .error e
        | .ok rowChunks => .ok (mainChunk :: rowChunks, md)

/-- The `tab` branch of the element loop: size and validation gates, format
selection (markdown, else TSV, else the plain-text simplifier — each tested
for truthiness as the source does), then `processTabEmit`. -/
def processTab (cfg : Config) (pno ro : ℤ) (bbox_norm : Option Box) (txt : Str) :
    Except String (List Chunk × List Str) :=
  if txt = [] ∨ (pyStrip txt).length < 30 then .ok ([], [])
  else if txt.length > 50000 then .ok ([], [])
  else if ¬ validate_html_table txt then .ok ([], [])
  else
    let conv := table_to_md_tsv_and_sentences cfg.pandas txt none
    let selected : Str × Str :=
      match conv.markdown with
      | some m =>
          if ¬ (m = []) then ("markdown".data, m)
          else
            (match conv.tsv with
             | some t => if ¬ (t = []) then ("tsv".data, t)
                         else ("simplified_html".data, simplify_html_table txt)
             | none => ("simplified_html".data, simplify_html_table txt))
      | none =>
          match conv.tsv with
          | some t => if ¬ (t = []) then ("tsv".data, t)
                      else ("simplified_html".data, simplify_html_table txt)
          | none => ("simplified_html".data, simplify_html_table txt)
    processTabEmit cfg pno ro bbox_norm conv selected.1 selected.2

/-- Prepend an element's chunks and markdown parts to the tail result. -/
def consRes (cs : List Chunk) (md : List Str)
    (r : Except String (List Chunk × List Str)) : Except String (List Chunk × List Str) :=
  match r with
  | .error e => .error e
  | .ok p => .ok (cs ++ p.1, md ++ p.2)

/-- Markdown rendering of one text part with the label-specific prefix. -/
def mdForPart (label part : Str) : Str :=
  if label = "title".data then "# ".data ++ part ++ "\n\n".data
  else if label = "sec".data then "## ".data ++ part ++ "\n\n".data
  else if label = "sub_sec".data then "### ".data ++ part ++ "\n\n".data
  else part ++ "\n\n".data

/-- The chunks and markdown of a text-bearing element (title, sec, sub_sec,
para, fnote, unknown labels): paragraph splitting for `para`, sub-bbox
estimation when the text was split, `part_index` only when split, and the
crude `min(1, len/100)` quality score. -/
def textElementChunks (cfg : Config) (pno ro : ℤ) (label : Str) (bbox_norm : Option Box)
    (txt : Str) : List Chunk × List Str :=
  let parts :=
    if label = "para".data then split_long_paragraph txt cfg.para_max_chars 1 else [txt]
  let pieces := parts.enum.map (fun sip =>
    let si := sip.1
    let part := sip.2
    let part_bbox :=
      if parts.length > 1 then
        match bbox_norm with
        | some b => some (estimate_sub_bbox b part txt si)
        | none => bbox_norm
      else bbox_norm
    (({ chunk_id := mkChunkId cfg.doc_id pno ro ro (natStr si)
        chunk_type := dolphin2type label
        text := part
        grounding := ⟨pno, part_bbox⟩
        metadata := {
          labels := [label]
          reading_order_range := (ro, ro)
          part_index := if parts.length > 1 then some si else none
          quality_score := some (min 1 (((part.length : Nat) : ℚ) / 100)) } } : Chunk),
     mdForPart label part))
  (pieces.map (fun p => p.1), pieces.map (fun p => p.2))

/-- The element loop of one page, walking elements in sorted order.  A figure
with `fuse_figure_and_caption` consumes an immediately following caption
element (which is then skipped entirely — its bbox is never normalised).
Every other non-excluded element has its bbox normalised first, which is the
one raise point. -/
def mapElems (cfg : Config) (pno : ℤ) (wh : Option (ℤ × ℤ)) :
    Nat → List Element → Except String (List Chunk × List Str)
  | 0, _ => .ok ([], [])
  | _ + 1, [] => .ok ([], [])
  | fuel + 1, el :: rest =>
      let label := pyLower (el.label.getD [])
      if label ∈ cfg.exclude_labels then mapElems cfg pno wh fuel rest
      else
        let txt := pyStrip (el.text.getD [])
        let bbox := (el.bbox.getD [])
        let ro := el.reading_order.getD 0
        match normalize_box bbox wh with
        | .error e => .error e
        | .ok bbox_norm =>
            if label = "fig".data ∧ cfg.fuse_figure_and_caption then
              let mkFig := fun (vis : Str) (ro_end : ℤ) (labels : List Str) =>
                ({ chunk_id := mkChunkId cfg.doc_id pno ro ro_end "0".data
                   chunk_type := "figure".data
                   text := vis
                   grounding := ⟨pno, bbox_norm⟩
                   metadata := {
                     labels := labels
                     reading_order_range := (ro, ro_end)
                     figure_path := el.figure_path } } : Chunk)
              match rest with
              | cap :: rest2 =>
                  if pyLower (cap.label.getD []) = "cap".data then
                    let cap_txt := pyStrip (cap.text.getD [])
                    let ro_end := cap.reading_order.getD ro
                    let vis := if cap_txt = [] then txt else cap_txt
                    consRes [mkFig vis ro_end [label, "cap".data]]
                      (if vis = [] then [] else [vis ++ "\n\n".data])
                      (mapElems cfg pno wh fuel rest2)
                  else
                    consRes [mkFig txt ro [label]]
                      (if txt = [] then [] else [txt ++ "\n\n".data])
                      (mapElems cfg pno wh fuel rest)
              | [] => .ok ([mkFig txt ro [label]], if txt = [] then [] else [txt ++ "\n\n".data])
            else if label = "tab".data then
              match processTab cfg pno ro bbox_norm txt with
              | .error e => .error e
              | .ok p => consRes p.1 p.2 (mapElems cfg pno wh fuel rest)
            else if label = "cap".data then
              if ¬ (txt = []) then
                consRes
                  [{ chunk_id := mkChunkId cfg.doc_id pno ro ro "0".data
                     chunk_type := "caption".data
                     text := txt
                     grounding := ⟨pno, bbox_norm⟩
                     metadata := { labels := [label], reading_order_range := (ro, ro) } }]
                  ['*' :: txt ++ "*\n\n".data]
                  (mapElems cfg pno wh fuel rest)
              else mapElems cfg pno wh fuel rest
            else
              if ¬ (txt = []) then
                let p := textElementChunks cfg pno ro label bbox_norm txt
                consRes p.1 p.2 (mapElems cfg pno wh fuel rest)
              else mapElems cfg pno wh fuel rest

/-- Element order within a page (`sorted(elements, key=reading_order)`;
Python `sorted` is stable). -/
def elemLt (a b : Element) : Bool := a.reading_order.getD 0 < b.reading_order.getD 0

/-- The page loop. -/
def mapPages (cfg : Config) : List PageD → Except String (List Chunk × List Str)
  | [] => .ok ([], [])
  | page :: rest =>
      let pno := page.page_number.getD 1
      let elements := sortBy elemLt page.elements
      let wh := cfg.page_dims pno
      match mapElems cfg pno wh (elements.length + 1) elements with
      | .error e => .error e
      | .ok p => consRes p.1 p.2 (mapPages cfg rest)

/-- `transform_dolphin_to_oxcart_preserving_labels` (dolphin_transformer.py):
detect the input shape (the only uncaught raise apart from bbox unpacking and
the zero row-block step), map all pages to chunks and markdown, run the
internal grouping pass, optionally the external optimizer, and the final
validation pass. -/
def transform_dolphin_to_oxcart_preserving_labels (cfg : Config) (input : RecInput) :
    Except String Document :=
  match shapeOf input with
  | none => .error "Unrecognized format for recognition_results"
  | some pages_in =>
      match mapPages cfg pages_in with
      | .error e => .error e
      | .ok res =>
          let oxcart : Document := {
            doc_id := cfg.doc_id
            source := "dolphin".data
            page_count := pages_in.length
            extraction_date := cfg.now
            metadata := ⟨[], [], "und".data⟩
            chunks := res.1
            markdown := pyStrip res.2.flatten
            extraction_metadata := none }
          let doc1 :=
            if oxcart.chunks.length > 0 then
              { oxcart with chunks := group_small_chunks oxcart.chunks 100 1200 }
            else oxcart
          let doc2 :=
            if cfg.optimize_for_rag then
              optimize_chunks_for_rag doc1 cfg.now cfg.max_chunk_length
            else doc1
          .ok (validate_and_enhance_chunks doc2)

/-!
The comparison engine, `analyze_json_comparison.py`.  A corpus JSON file is
modelled by what the scoring path reads from it: the per-page element counts
(when a `pages` key is present), and for each chunk its key set and whether it
has a truthy `grounding[0]["box"]`.
-/

/-- What the comparison reads from one chunk dict. -/
structure JChunk where
  fields : List Str
  hasBox : Bool
deriving DecidableEq

/-- What the comparison reads from one corpus file. -/
structure JCorpus where
  pages : Option (List Nat) := none
  chunks : Option (List JChunk) := none
deriving DecidableEq

/-- Set insertion on a duplicate-free list (models Python `set.update`). -/
def setInsert (x : Str) (s : List Str) : List Str := if x ∈ s then s else s ++ [x]

/-- Set union of a duplicate-free list with the elements of another list. -/
def setUnion (s xs : List Str) : List Str := xs.foldl (fun acc x => setInsert x acc) s

/-- `analyze_json_structure`: the `chunk_fields` set, collected from the first
five chunks. -/
def chunkFieldSet (c : JCorpus) : List Str :=
  ((c.chunks.getD []).take 5).foldl (fun s ch => setUnion s ch.fields) []

/-- `analyze_json_structure`: `total_chunks`. -/
def totalChunks (c : JCorpus) : Nat := (c.chunks.getD []).length

/-- `analyze_json_structure`: `total_elements`, present only when the file has
a `pages` key. -/
def totalElements (c : JCorpus) : Option Nat := c.pages.map List.sum

/-- `compare_structures`: `field_coverage = round(|live ∩ ideal| / |ideal|, 2)`
when the ideal field set is non-empty, else 0. -/
def field_coverage (live ideal : JCorpus) : ℚ :=
  let fl := chunkFieldSet live
  let fi := chunkFieldSet ideal
  if fi = [] then 0
  else pyRound 2 (((fl.filter (fun x => x ∈ fi)).length : ℚ) / (fi.length : ℚ))

/-- `compare_structures`: the `ratio` of ideal chunks over live elements
(`dolphin_analysis.get("total_elements", 0)`, so 0 — hence ratio 0 — when the
live file has no `pages` key), rounded to 2 decimals. -/
def chunk_count_ratio (live ideal : JCorpus) : ℚ :=
  let d := (totalElements live).getD 0
  if d > 0 then pyRound 2 ((totalChunks ideal : ℚ) / (d : ℚ)) else 0

/-- `analyze_chunk_characteristics`: the number of ideal chunks with a truthy
grounding box. -/
def chunks_with_bbox (c : JCorpus) : Nat :=
  ((c.chunks.getD []).filter (fun ch => ch.hasBox)).length

/-- The similarity score computed inline in `main` (analyze_json_comparison.py):
the unweighted mean of field coverage, the capped chunk-count ratio, and the
bbox-presence flag of the ideal corpus. -/
def comparison_score (live ideal : JCorpus) : ℚ :=
  (field_coverage live ideal + min 1 (chunk_count_ratio live ideal) +
    (if chunks_with_bbox ideal > 0 then 1 else 0)) / 3

/-!
Concrete inputs used by the theorems below.
-/

/-- Configuration of the spec's example scenario: `page_dims_provider`
returning (100, 100), `para_max_chars = 1000`, all else default. -/
def cfgC1 : Config := { page_dims := fun _ => some (100, 100), para_max_chars := 1000 }

/-- The single input element of the example scenario. -/
def elC1 : Element :=
  { label := some "para".data, text := some "A. B. C. D.".data,
    bbox := some [0, 0, 100, 100], reading_order := some 1 }

/-!
Claim-level predicates and concrete inputs.
-/

/-- Whether one element's bbox would make the 4-way unpacking of
`_normalize_box` raise: a truthy bbox of length other than 4 while both page
dimensions are known and non-zero. -/
def badBoxFlag (bbox : List ℚ) (wh : Option (ℤ × ℤ)) : Bool :=
  match bbox, wh with
  | [], _ => false
  | _, none => false
  | bs, some (w, h) => if w = 0 ∨ h = 0 then false else ¬ (bs.length = 4)

/-- The bbox-unpack raise condition of one page's element loop, stated as an
independent recursion: walking the sorted elements with the fused-caption skip,
some non-excluded element's bbox fails the 4-way unpacking.  (A caption
consumed by figure fusion is skipped before its bbox is ever normalised; the
fusing figure itself is normalised first.) -/
def hasBadBbox (excl : List Str) (fuse : Bool) (wh : Option (ℤ × ℤ)) :
    Nat → List Element → Bool
  | 0, _ => false
  | _ + 1, [] => false
  | fuel + 1, el :: rest =>
      let label := pyLower (el.label.getD [])
      if label ∈ excl then hasBadBbox excl fuse wh fuel rest
      else
        if badBoxFlag (el.bbox.getD []) wh then true
        else if label = "fig".data ∧ fuse then
          match rest with
          | cap :: rest2 =>
              if pyLower (cap.label.getD []) = "cap".data then hasBadBbox excl fuse wh fuel rest2
              else hasBadBbox excl fuse wh fuel rest
          | [] => false
        else hasBadBbox excl fuse wh fuel rest

/-- The raise condition of the whole transform, for configurations whose
`table_row_block_size` is not zero: unrecognized top-level shape, or some page
containing a bad bbox in the sense of `hasBadBbox`. -/
def transformRaises (cfg : Config) (input : RecInput) : Bool :=
  match shapeOf input with
  | none => true
  | some pages =>
      pages.any (fun page =>
        let elements := sortBy elemLt page.elements
        hasBadBbox cfg.exclude_labels cfg.fuse_figure_and_caption
          (cfg.page_dims (page.page_number.getD 1)) (elements.length + 1) elements)

/-- Whether an `Except` result is an error. -/
def isErr {ε α : Type} : Except ε α → Bool
  | .error _ => true
  | .ok _ => false

/-- The nine chunk types named by the spec's data model. -/
def nineChunkTypes : List Str :=
  ["title".data, "section".data, "subsection".data, "text".data, "table".data,
   "table_row".data, "figure".data, "caption".data, "marginalia".data]

/-- The chunk types the code can actually produce: the nine above plus
`header` (label-mapped when not excluded, and position-classified) and
`footer` (position-classified). -/
def elevenChunkTypes : List Str :=
  nineChunkTypes ++ ["header".data, "footer".data]

/-- A base-format chunk id `doc_id:page(03d):s-e:suffix` where the suffix is a
plain part index or `rows` followed by an index. -/
def IsBaseChunkId (docId : Str) (id : Str) : Prop :=
  ∃ pno s e suffix, (∃ k : Nat, suffix = natStr k ∨ suffix = "rows".data ++ natStr k) ∧
    id = mkChunkId docId pno s e suffix

/-- A chunk id as the pipeline can produce it: the base format, or a base id
with a `_split_N` suffix appended by the post-grouping re-split. -/
def IsPipelineChunkId (docId : Str) (id : Str) : Prop :=
  ∃ base, IsBaseChunkId docId base ∧
    (id = base ∨ ∃ k : Nat, id = base ++ "_split_".data ++ natStr k)

/-- A small text chunk used by the grouping counterexample. -/
def smallTextChunk (name : Str) (t : Str) (ro : ℤ) : Chunk :=
  { chunk_id := name
    chunk_type := "text".data
    text := t
    grounding := ⟨1, none⟩
    metadata := { labels := ["para".data], reading_order_range := (ro, ro) } }

/-- The grouping counterexample: three small `text` chunks on one page at
reading orders 2, 7, 10.  The first pass merges only the first two (the gap
from the first chunk's original range to the third is 8 > 5), producing a
combined chunk whose range ends at 7; the second pass then sees a gap of 3
and merges again. -/
def chunksC4 : List Chunk :=
  [smallTextChunk "A".data "a".data 2,
   smallTextChunk "D".data "b".data 7,
   smallTextChunk "B".data "c".data 10]

/-- A 100-character text (the `min_chunk_size` threshold). -/
def text100 : Str := List.replicate 100 'x'

/-- Two large chunks, for the idempotence witness. -/
def chunksC4w : List Chunk :=
  [smallTextChunk "W1".data text100 1, smallTextChunk "W2".data text100 2]

/-- Witness document for the validator: one chunk with an inverted,
out-of-range box. -/
def docC5 : Document :=
  { doc_id := "d".data
    source := "dolphin".data
    page_count := 1
    extraction_date := []
    metadata := ⟨[], [], "und".data⟩
    chunks := [{ chunk_id := "c".data
                 chunk_type := "text".data
                 text := "0123456789abc".data
                 grounding := ⟨1, some ⟨2, 1/2, -1, 1/4⟩⟩
                 metadata := { labels := ["para".data], reading_order_range := (1, 1) } }]
    markdown := []
    extraction_metadata := none }

/-- Counterexample input for the nine-type claim (a different scenario from
the C1 one): a short paragraph whose box starts at the top of the page, which
the optimizer reclassifies as `header`. -/
def elC6 : Element :=
  { label := some "para".data, text := some "Short heading here.".data,
    bbox := some [10, 0, 90, 12], reading_order := some 3 }

/-- Configuration for the C6 counterexample (page dims 100 by 100, defaults
otherwise). -/
def cfgC6 : Config := { page_dims := fun _ => some (100, 100) }

/-- The C7 witness table: two rows whose cells are empty, so that validation
passes (no non-empty cell content to fault) while both the fallback parser
and the simplifier find no usable row. -/
def htmlC7 : Str := "<table><tr><td></td></tr><tr><td></td></tr></table>".data

/-- A 100-character paragraph text for the chunk-id counterexample (long
enough that the internal grouping pass keeps chunks untouched). -/
def paraText100 : Str :=
  List.replicate 50 'q' ++ ' ' :: List.replicate 49 'r'

/-- Two paragraph elements sharing reading order 5: their chunks get the
same chunk id. -/
def elemsC8 : List Element :=
  [{ label := some "para".data, text := some paraText100, reading_order := some 5 },
   { label := some "para".data, text := some (paraText100.map (fun c => if c = 'q' then 's' else c)), reading_order := some 5 }]

/-- Configuration for the C8 counterexample: external optimization off (the
claim quantifies over every configuration). -/
def cfgC8 : Config := { optimize_for_rag := false }

/-- Identical-corpus input for the comparison-score counterexample. -/
def corpusC10 : JCorpus :=
  { chunks := some [⟨["chunk_id".data, "text".data, "grounding".data], true⟩] }

/-- A different identical-corpus input for the comparison-score witness. -/
def corpusC10w : JCorpus :=
  { chunks := some [⟨["chunk_id".data, "chunk_type".data], false⟩, ⟨["metadata".data], true⟩] }

/-- Counterexample element for the failure-semantics claim: a recognized flat
element list whose single element has a three-number bbox (the 4-way unpacking
of `_normalize_box` raises on it when page dimensions are known and
non-zero). -/
def elC2 : Element :=
  { label := some "para".data, text := some "Some long enough text here.".data,
    bbox := some [1, 2, 3], reading_order := some 1 }

/-- Configuration for the C2 counterexample: page dims (50, 50), defaults
otherwise. -/
def cfgC2 : Config := { page_dims := fun _ => some (50, 50) }

/-- The per-chunk property established at emission time: one of the eleven
producible chunk types, and a base-format chunk id. -/
def EmittedChunk (docId : Str) (c : Chunk) : Prop :=
  c.chunk_type ∈ elevenChunkTypes ∧ IsBaseChunkId docId c.chunk_id

/-- Extract the document of a successful transform (used by the witnesses). -/
def docOf (r : Except String Document) (d0 : Document) : Document :=
  match r with
  | .ok d => d
  | .error _ => d0

/-- The fallback document for `docOf`. -/
def emptyDoc : Document :=
  { doc_id := [], source := [], page_count := 0, extraction_date := [],
    metadata := ⟨[], [], []⟩, chunks := [], markdown := [], extraction_metadata := none }

/-- Witness element for the chunk-type invariant: a plain paragraph. -/
def elC6w : Element :=
  { label := some "para".data,
    text := some "This is a plain paragraph of readable prose for the witness.".data,
    reading_order := some 1 }

/-- Witness input for the chunk-type invariant. -/
def inputC6w : RecInput := .listOf [.elemItem elC6w]

/-- Witness document for the chunk-type invariant (default configuration). -/
def docC6w : Document :=
  docOf (transform_dolphin_to_oxcart_preserving_labels {} inputC6w) emptyDoc

/-- C8 counterexample input: two paragraphs sharing reading order 5. -/
def inputC8 : RecInput := .listOf (elemsC8.map .elemItem)

/-- Witness element for the chunk-id format claim: a footnote. -/
def elC8w : Element :=
  { label := some "fnote".data,
    text := some "A footnote that is long enough to stay its own chunk in the witness.".data,
    reading_order := some 2 }

/-- Witness input for the chunk-id format claim. -/
def inputC8w : RecInput := .listOf [.elemItem elC8w]

/-- Witness document for the chunk-id format claim. -/
def docC8w : Document :=
  docOf (transform_dolphin_to_oxcart_preserving_labels cfgC8 inputC8w) emptyDoc

/-!
Theorems for the claims.
-/

/-- C1 (counterexample): on the spec's example input (one `para` element
"A. B. C. D.", bbox [0,0,100,100], reading order 1, page dims (100,100),
`para_max_chars = 1000`, otherwise default configuration — in particular
`optimize_for_rag = True`), the transform returns one chunk whose
`chunk_type` is `header`, not `text`: the optimizer's position-based
reclassification overrides the label-derived type because the box top 0 is
below 0.15 and the text is shorter than 100 characters. -/
theorem C1_example_scenario_counterexample :
    (transform_dolphin_to_oxcart_preserving_labels cfgC1 (.listOf [.elemItem elC1])).map
      (fun d => d.chunks.map Chunk.chunk_type) = .ok ["header".data] ∧
    ¬ (("header".data : Str) = "text".data) := by
  with_unfolding_all decide

/-- C1 (amended): the example scenario yields exactly one chunk with text
"A. B. C. D.", grounding box (0, 0, 1, 1), reading-order range [1, 1] — and
chunk_type `header` (the label-derived `text` is overridden by the default
RAG reclassification). -/
theorem C1_example_scenario :
    (transform_dolphin_to_oxcart_preserving_labels cfgC1 (.listOf [.elemItem elC1])).map
      (fun d => d.chunks.map (fun c =>
        (c.chunk_type, c.text, c.grounding.box, c.metadata.reading_order_range))) =
    .ok [("header".data, "A. B. C. D.".data, some ⟨0, 0, 1, 1⟩, (1, 1))] := by
  with_unfolding_all decide

/-- C4 (counterexample): the internal grouping pass is not idempotent.  On
three small same-page `text` chunks at reading orders 2, 7, 10, the first
pass merges only the first two (the gap measured from the FIRST chunk's
original range to the third chunk is 8 > 5), but the merged chunk's range now
ends at 7, so a second pass sees a gap of 3 and merges again — the two
passes give different outputs. -/
theorem C4_group_idempotence_counterexample :
    ¬ (group_small_chunks (group_small_chunks chunksC4) = group_small_chunks chunksC4) := by
  with_unfolding_all decide

/-- The grouping pass leaves a list alone when every chunk meets the minimum
size: each step takes the keep-as-is branch. -/
theorem groupSmallGo_all_large (minSize maxComb : Nat) :
    ∀ (fuel : Nat) (l : List Chunk), l.length ≤ fuel →
      (∀ c ∈ l, minSize ≤ c.text.length) → groupSmallGo minSize maxComb fuel l = l := by
  intro fuel
  induction fuel with
  | zero =>
      intro l hl _
      cases l with
      | nil => rfl
      | cons c rest => simp at hl
  | succ n ih =>
      intro l hl hall
      cases l with
      | nil => rfl
      | cons c rest =>
          have hc : minSize ≤ c.text.length := hall c (List.mem_cons_self c rest)
          have hlen : rest.length ≤ n := by simp at hl; omega
          have hrest : groupSmallGo minSize maxComb n rest = rest :=
            ih rest hlen (fun x hx => hall x (List.mem_cons_of_mem c hx))
          simp [groupSmallGo, hc, hrest]

/-- C4 (amended): the internal grouping pass is idempotent on chunk lists in
which every chunk already meets the 100-character minimum (the pass is then
the identity); in general it is NOT idempotent, because absorbing a chunk
extends the stored reading-order range, which can enable merges in a second
pass that the first pass rejected. -/
theorem C4_group_idempotent_on_large (l : List Chunk)
    (h : ∀ c ∈ l, 100 ≤ c.text.length) :
    group_small_chunks (group_small_chunks l) = group_small_chunks l := by
  have h1 : group_small_chunks l = l :=
    groupSmallGo_all_large 100 1200 (l.length + 1) l (by omega) h
  rw [h1]
  exact h1

/-- C4 (witness): the idempotence theorem applied to two 100-character
chunks. -/
theorem C4_group_idempotent_on_large_witness :
    group_small_chunks (group_small_chunks chunksC4w) = group_small_chunks chunksC4w :=
  C4_group_idempotent_on_large chunksC4w (by with_unfolding_all decide)

/-- Clamping stays in the unit interval and is monotone. -/
theorem clamp01_bounds (q : ℚ) : 0 ≤ clamp01 q ∧ clamp01 q ≤ 1 :=
  ⟨le_max_left 0 _, max_le (by norm_num) (min_le_left 1 q)⟩

/-- Monotonicity of clamping. -/
theorem clamp01_mono {a b : ℚ} (h : a ≤ b) : clamp01 a ≤ clamp01 b :=
  max_le_max le_rfl (min_le_min le_rfl h)

/-- The swap-then-clamp repair always produces a well-ordered box inside the
unit square, from any input box. -/
theorem repairBox_valid (bx : Box) :
    0 ≤ (repairBox bx).l ∧ (repairBox bx).l ≤ (repairBox bx).r ∧ (repairBox bx).r ≤ 1 ∧
    0 ≤ (repairBox bx).t ∧ (repairBox bx).t ≤ (repairBox bx).b ∧ (repairBox bx).b ≤ 1 := by
  unfold repairBox
  rcases le_or_lt bx.r bx.l with h1 | h1 <;> rcases le_or_lt bx.b bx.t with h2 | h2 <;>
    by_cases e1 : bx.l > bx.r <;> by_cases e2 : bx.t > bx.b <;>
      simp only [e1, e2, if_true, if_false] <;>
      refine ⟨(clamp01_bounds _).1, clamp01_mono (by linarith), (clamp01_bounds _).2,
              (clamp01_bounds _).1, clamp01_mono (by linarith), (clamp01_bounds _).2⟩

/-- C5: after `_validate_and_enhance_chunks`, the chunk count is unchanged
(the pass removes no chunks) and every chunk whose grounding has a non-null
box satisfies `0 ≤ l ≤ r ≤ 1` and `0 ≤ t ≤ b ≤ 1`; the swap-then-clamp
repair establishes this for every possible input box. -/
theorem C5_validator_box_invariant (doc : Document) :
    (validate_and_enhance_chunks doc).chunks.length = doc.chunks.length ∧
    ∀ c ∈ (validate_and_enhance_chunks doc).chunks, ∀ bx : Box,
      c.grounding.box = some bx →
      0 ≤ bx.l ∧ bx.l ≤ bx.r ∧ bx.r ≤ 1 ∧ 0 ≤ bx.t ∧ bx.t ≤ bx.b ∧ bx.b ≤ 1 := by
  unfold validate_and_enhance_chunks
  by_cases hnil : doc.chunks = []
  · rw [if_pos hnil]
    refine ⟨rfl, ?_⟩
    intro c hc
    rw [hnil] at hc
    cases hc
  · simp only [hnil, if_false]
    constructor
    · exact List.length_map _ _
    · intro c hc bx hbx
      rcases List.mem_map.mp hc with ⟨c0, _, hrep⟩
      subst hrep
      unfold repairChunk at hbx
      rcases hbox : c0.grounding.box with _ | b0
      · rw [hbox] at hbx; simp at hbx
        rw [hbox] at hbx; cases hbx
      · rw [hbox] at hbx
        simp only at hbx
        have : repairBox b0 = bx := by
          have := hbx
          simpa using this
        rw [← this]
        exact repairBox_valid b0

/-- C5 (witness): the invariant at a concrete document whose one chunk has an
inverted, out-of-range box (2, 1/2, -1, 1/4), repaired to (0, 1/4, 1, 1/2). -/
theorem C5_validator_box_invariant_witness :
    (validate_and_enhance_chunks docC5).chunks.length = docC5.chunks.length ∧
    (0 ≤ (0 : ℚ) ∧ (0 : ℚ) ≤ 1 ∧ (1 : ℚ) ≤ 1 ∧ 0 ≤ (1/4 : ℚ) ∧ (1/4 : ℚ) ≤ 1/2 ∧ (1/2 : ℚ) ≤ 1) := by
  constructor
  · exact (C5_validator_box_invariant docC5).1
  · exact (C5_validator_box_invariant docC5).2
      ((validate_and_enhance_chunks docC5).chunks.headD
        (smallTextChunk [] [] 0))
      (by with_unfolding_all decide) ⟨0, 1/4, 1, 1/2⟩ (by with_unfolding_all decide)

/-- A truthy bbox that does not have exactly four entries makes
`_normalize_box` raise (once both page dimensions are known and non-zero). -/
theorem normalize_box_err_of_bad_len (bbox : List ℚ) (w h : ℤ) (hw : ¬ (w = 0))
    (hh : ¬ (h = 0)) (hne : ¬ (bbox = [])) (hlen : ¬ (bbox.length = 4)) :
    isErr (normalize_box bbox (some (w, h))) = true := by
  rcases bbox with _ | ⟨a, _ | ⟨b, _ | ⟨c, _ | ⟨d, _ | ⟨e, rest⟩⟩⟩⟩⟩
  · exact absurd rfl hne
  all_goals simp [normalize_box, isErr, hw, hh] at *

/-- C3 (amended): full characterization of the two bbox normalisers.
`_normalize_box` returns null for a falsy bbox or unknown/zero page
dimensions; for a four-element bbox it divides by the page dimensions and
rounds to six decimals WITHOUT clamping; for any other non-empty bbox (with
usable dimensions) it RAISES.  `normalize_bbox_coordinates` returns null on a
wrong-length bbox and clamps its output, but raises on a zero page
dimension. -/
theorem C3_bbox_normalizer_characterization (bbox : List ℚ) (w h : ℤ) :
    (normalize_box bbox none = .ok none) ∧
    (bbox = [] → normalize_box bbox (some (w, h)) = .ok none) ∧
    ((w = 0 ∨ h = 0) → normalize_box bbox (some (w, h)) = .ok none) ∧
    (¬ (w = 0) → ¬ (h = 0) → ∀ x1 y1 x2 y2, bbox = [x1, y1, x2, y2] →
      normalize_box bbox (some (w, h)) =
        .ok (some ⟨pyRound 6 (x1 / (w : ℚ)), pyRound 6 (y1 / (h : ℚ)),
                   pyRound 6 (x2 / (w : ℚ)), pyRound 6 (y2 / (h : ℚ))⟩)) ∧
    (¬ (w = 0) → ¬ (h = 0) → ¬ (bbox = []) → ¬ (bbox.length = 4) →
      isErr (normalize_box bbox (some (w, h))) = true) ∧
    (¬ (bbox.length = 4) → normalize_bbox_coordinates bbox w h = .ok none) ∧
    (bbox.length = 4 → (w = 0 ∨ h = 0) →
      isErr (normalize_bbox_coordinates bbox w h) = true) ∧
    (¬ (w = 0) → ¬ (h = 0) → ∀ x1 y1 x2 y2, bbox = [x1, y1, x2, y2] →
      normalize_bbox_coordinates bbox w h =
        .ok (some ⟨clamp01 (x1 / (w : ℚ)), clamp01 (y1 / (h : ℚ)),
                   clamp01 (x2 / (w : ℚ)), clamp01 (y2 / (h : ℚ))⟩)) := by
  refine ⟨?_, ?_, ?_, ?_, ?_, ?_, ?_, ?_⟩
  · cases bbox <;> rfl
  · intro hb; subst hb; rfl
  · intro hwh
    cases bbox with
    | nil => rfl
    | cons a rest => simp [normalize_box, hwh]
  · intro hw hh x1 y1 x2 y2 hb
    subst hb
    simp [normalize_box, hw, hh]
  · exact fun hw hh => normalize_box_err_of_bad_len bbox w h hw hh
  · intro hlen
    simp [normalize_bbox_coordinates, hlen]
  · intro hlen hwh
    have hne : ¬ (bbox = []) := by
      intro hb; rw [hb] at hlen; simp at hlen
    simp [normalize_bbox_coordinates, hlen, hne, hwh, isErr]
  · intro hw hh x1 y1 x2 y2 hb
    subst hb
    simp [normalize_bbox_coordinates, hw, hh]

/-- C3 (counterexample): `_normalize_box` raises on the three-element bbox
[1, 2, 3] with dimensions (100, 100) — the claim says it should return null —
and on [0, 0, 200, 100] it returns r = 2, which is NOT clamped to [0, 1]. -/
theorem C3_bbox_normalizer_counterexample :
    normalize_box [1, 2, 3] (some (100, 100)) =
      .error "ValueError: bbox does not unpack into x1, y1, x2, y2" ∧
    normalize_box [0, 0, 200, 100] (some (100, 100)) = .ok (some ⟨0, 0, 2, 1⟩) ∧
    ¬ ((2 : ℚ) ≤ 1) := by
  with_unfolding_all decide

/-- C3 (witness): the characterization applied to the bbox [0, 0, 50, 100]
on a 100 by 100 page. -/
theorem C3_bbox_normalizer_witness :
    normalize_box [0, 0, 50, 100] (some (100, 100)) =
      .ok (some ⟨pyRound 6 ((0 : ℚ) / (100 : ℚ)), pyRound 6 ((0 : ℚ) / (100 : ℚ)),
                 pyRound 6 ((50 : ℚ) / (100 : ℚ)), pyRound 6 ((100 : ℚ) / (100 : ℚ))⟩) :=
  (C3_bbox_normalizer_characterization [0, 0, 50, 100] 100 100).2.2.2.1
    (by decide) (by decide) 0 0 50 100 rfl

/-- Half-even rounding fixes 1 at two decimals. -/
theorem pyRound_two_one : pyRound 2 1 = 1 := by with_unfolding_all decide

/-- C10 (amended): the similarity score of a corpus against itself is 2/3,
not 1.0, whenever the corpus is a chunks-only file (no `pages` key), has a
non-empty chunk field set, and has at least one chunk with a box: field
coverage contributes 1 and the bbox flag contributes 1, but the chunk-count
ratio is computed against `total_elements` of the live file — a key that only
a `pages` file has — so `.get("total_elements", 0)` yields 0 and that factor
is 0. -/
theorem C10_comparison_score_identical (c : JCorpus)
    (hpages : c.pages = none) (hfields : ¬ (chunkFieldSet c = []))
    (hbox : 0 < chunks_with_bbox c) :
    comparison_score c c = 2/3 := by
  have hlen : ((chunkFieldSet c).length : ℚ) ≠ 0 := by
    have : 0 < (chunkFieldSet c).length := List.length_pos.mpr hfields
    exact_mod_cast Nat.pos_iff_ne_zero.mp this
  have hcov : field_coverage c c = 1 := by
    unfold field_coverage
    rw [if_neg hfields]
    have hfilter : ((chunkFieldSet c).filter (fun x => x ∈ chunkFieldSet c)) =
        chunkFieldSet c := by
      apply List.filter_eq_self.mpr
      intro a ha
      simpa using ha
    rw [hfilter, div_self hlen]
    exact pyRound_two_one
  have hratio : chunk_count_ratio c c = 0 := by
    unfold chunk_count_ratio totalElements
    rw [hpages]
    rfl
  have hflag : (if chunks_with_bbox c > 0 then (1 : ℚ) else 0) = 1 := if_pos hbox
  unfold comparison_score
  rw [hcov, hratio, hflag]
  norm_num

/-- C10 (counterexample): for the concrete corpus with one chunk (fields
`chunk_id`, `text`, `grounding`; with a box) compared against itself —
identical field keys, identical chunk count, at least one box — the score is
2/3, not the claimed 1.0. -/
theorem C10_comparison_score_counterexample :
    ¬ (comparison_score corpusC10 corpusC10 = 1) ∧
    comparison_score corpusC10 corpusC10 = 2/3 := by
  with_unfolding_all decide

/-- C10 (witness): the amended theorem at a two-chunk corpus. -/
theorem C10_comparison_score_identical_witness :
    comparison_score corpusC10w corpusC10w = 2/3 :=
  C10_comparison_score_identical corpusC10w rfl
    (by with_unfolding_all decide) (by with_unfolding_all decide)

/-- Unfolding `joinSpace` on a cons with non-empty tail. -/
theorem joinSpace_cons (x : Str) (y : Str) (rest : List Str) :
    joinSpace (x :: y :: rest) = x ++ ' ' :: joinSpace (y :: rest) := rfl

/-- Length of a space-join: the sum of the part lengths plus one separator
between consecutive parts. -/
theorem joinSpace_length : ∀ (l : List Str), l ≠ [] →
    (joinSpace l).length = (l.map List.length).sum + (l.length - 1) := by
  intro l
  induction l with
  | nil => intro h; exact absurd rfl h
  | cons x rest ih =>
      intro _
      cases rest with
      | nil => simp [joinSpace, joinSep]
      | cons y rest2 =>
          rw [joinSpace_cons]
          have := ih (by simp)
          simp only [List.length_append, List.length_cons, List.map_cons, List.sum_cons] at *
          omega

/-- A member of a list is an infix of its space-join. -/
theorem infix_joinSpace : ∀ (l : List Str) (s : Str), s ∈ l → s <:+: joinSpace l := by
  intro l
  induction l with
  | nil => intro s hs; cases hs
  | cons x rest ih =>
      intro s hs
      cases rest with
      | nil =>
          rcases List.mem_singleton.mp hs with rfl
          exact List.infix_refl s
      | cons y rest2 =>
          rw [joinSpace_cons]
          rcases List.mem_cons.mp hs with rfl | hmem
          · exact ⟨[], ' ' :: joinSpace (y :: rest2), by simp⟩
          · rcases ih s hmem with ⟨pre, post, heq⟩
            exact ⟨x ++ [' '] ++ pre, post, by simp [← heq]⟩

/-- The sentence splitter never returns an empty list. -/
theorem splitSentsGo_ne_nil : ∀ (fuel : Nat) (cur s : Str), splitSentsGo fuel cur s ≠ [] := by
  intro fuel
  induction fuel with
  | zero => intro cur s; simp [splitSentsGo]
  | succ n ih =>
      intro cur s
      cases s with
      | nil => simp [splitSentsGo]
      | cons c rest =>
          by_cases hb : pyIsSpace c ∧ headSentEnd cur
          · simp [splitSentsGo, hb]
          · simp only [splitSentsGo, if_neg hb]
            exact ih _ _

/-- Every whitespace character surviving whitespace collapsing is a plain
space. -/
theorem collapseWs_space_char : ∀ (s : Str) (b : Bool) (c : Char),
    c ∈ collapseWs b s → pyIsSpace c = true → c = ' ' := by
  intro s
  induction s with
  | nil => intro b c hc; cases hc
  | cons d rest ih =>
      intro b c hc hsp
      by_cases hd : pyIsSpace d = true
      · cases b with
        | true =>
            simp only [collapseWs, hd, if_true] at hc
            exact ih true c hc hsp
        | false =>
            simp only [collapseWs, hd, if_true] at hc
            rcases List.mem_cons.mp hc with rfl | hmem
            · rfl
            · exact ih true c hmem hsp
      · simp only [collapseWs, hd, if_false, Bool.false_eq_true] at hc
        rcases List.mem_cons.mp hc with rfl | hmem
        · exact absurd hsp hd
        · exact ih false c hmem hsp

/-- After a whitespace run was just collapsed, the output cannot begin with
another whitespace character. -/
theorem collapseWs_true_head : ∀ (s : Str) (c : Char),
    (collapseWs true s).head? = some c → pyIsSpace c = false := by
  intro s
  induction s with
  | nil => intro c hc; cases hc
  | cons d rest ih =>
      intro c hc
      by_cases hd : pyIsSpace d = true
      · simp only [collapseWs, hd, if_true] at hc
        exact ih c hc
      · simp only [collapseWs, hd, if_false, Bool.false_eq_true, List.head?_cons] at hc
        have hdc : d = c := Option.some.inj hc
        subst hdc
        exact Bool.eq_false_iff.mpr hd

/-- Collapsed text never contains two adjacent whitespace characters. -/
theorem collapseWs_chain : ∀ (s : Str) (b : Bool),
    List.Chain' (fun a c => pyIsSpace a = true → pyIsSpace c = false) (collapseWs b s) := by
  intro s
  induction s with
  | nil => intro b; simp [collapseWs]
  | cons d rest ih =>
      intro b
      by_cases hd : pyIsSpace d = true
      · cases b with
        | true => simpa only [collapseWs, hd, if_true] using ih true
        | false =>
            simp only [collapseWs, hd, if_true]
            rw [if_neg (by simp)]
            rw [List.chain'_cons']
            exact ⟨fun y hy _ => collapseWs_true_head rest y hy, ih true⟩
      · simp only [collapseWs, hd, if_false, Bool.false_eq_true]
        rw [List.chain'_cons']
        exact ⟨fun y _ hdy => absurd hdy hd, ih false⟩

/-- Re-joining the sentence split with single spaces reconstructs the text,
provided the text has only plain single spaces (which whitespace-collapsed
text does). -/
theorem joinSpace_splitSentsGo : ∀ (fuel : Nat) (cur s : Str), s.length ≤ fuel →
    (∀ c ∈ s, pyIsSpace c = true → c = ' ') →
    List.Chain' (fun a c => pyIsSpace a = true → pyIsSpace c = false) s →
    joinSpace (splitSentsGo fuel cur s) = cur.reverse ++ s := by
  intro fuel
  induction fuel with
  | zero =>
      intro cur s hlen _ _
      have : s = [] := List.length_eq_zero.mp (Nat.le_zero.mp hlen)
      subst this
      simp [splitSentsGo, joinSpace, joinSep]
  | succ n ih =>
      intro cur s hlen hsp hchain
      cases s with
      | nil => simp [splitSentsGo, joinSpace, joinSep]
      | cons c rest =>
          by_cases hb : pyIsSpace c ∧ headSentEnd cur
          · have hc : c = ' ' := hsp c (List.mem_cons_self c rest) hb.1
            have hdrop : rest.dropWhile pyIsSpace = rest := by
              cases rest with
              | nil => rfl
              | cons y rest2 =>
                  have hy : pyIsSpace y = false := by
                    have := (List.chain'_cons'.mp hchain).1 y (by simp)
                    exact this hb.1
                  simp [List.dropWhile_cons, hy]
            simp only [splitSentsGo, if_pos hb, hdrop]
            have hrest : joinSpace (splitSentsGo n [] rest) = rest := by
              have := ih [] rest (by simp at hlen; omega)
                (fun x hx => hsp x (List.mem_cons_of_mem c hx))
                (List.chain'_cons'.mp hchain).2
              simpa using this
            cases hgo : splitSentsGo n [] rest with
            | nil => exact absurd hgo (splitSentsGo_ne_nil n [] rest)
            | cons p ps =>
                have h2 : joinSpace (List.reverse cur :: p :: ps) =
                    List.reverse cur ++ ' ' :: joinSpace (p :: ps) := joinSpace_cons _ _ _
                rw [h2, ← hgo, hrest, hc]
          · simp only [splitSentsGo, if_neg hb]
            have := ih (c :: cur) rest (by simp at hlen; omega)
              (fun x hx => hsp x (List.mem_cons_of_mem c hx))
              (List.chain'_cons'.mp hchain).2
            rw [this]
            simp

/-- Re-joining the sentences of whitespace-normalised text reconstructs it. -/
theorem joinSpace_splitSents_normWs (text : Str) :
    joinSpace (splitSents (normWs text)) = normWs text := by
  have := joinSpace_splitSentsGo ((normWs text).length + 1) [] (normWs text)
    (Nat.le_succ _) (collapseWs_space_char (pyStrip text) false)
    (collapseWs_chain (pyStrip text) false)
  simpa [splitSents, normWs] using this

/-- Specification of the greedy sentence-packing loop: the stopping index is
at least the start, stays within the sentence list, and — when at least one
sentence was taken — the accumulated size (sentence lengths plus one
separator each) stays within the budget. -/
theorem greedyEnd_spec (maxChars : Nat) (sents : List Str) :
    ∀ (fuel j total : Nat),
      j ≤ greedyEnd maxChars sents fuel j total ∧
      (j ≤ sents.length → greedyEnd maxChars sents fuel j total ≤ sents.length) ∧
      (j < greedyEnd maxChars sents fuel j total →
        total + ((((sents.drop j).take (greedyEnd maxChars sents fuel j total - j)).map
          List.length).sum + (greedyEnd maxChars sents fuel j total - j)) ≤ maxChars) := by
  intro fuel
  induction fuel with
  | zero =>
      intro j total
      exact ⟨le_refl j, fun h => by simpa [greedyEnd] using h,
             fun h => absurd (by simpa [greedyEnd] using h) (lt_irrefl j)⟩
  | succ n ih =>
      intro j total
      cases hget : sents[j]? with
      | none =>
          refine ⟨?_, ?_, ?_⟩ <;> simp [greedyEnd, hget]
      | some s =>
          by_cases hcond : total + s.length + 1 ≤ maxChars
          · have hlt : j < sents.length := by
              by_contra hge
              rw [List.getElem?_eq_none (Nat.le_of_not_lt hge)] at hget
              cases hget
            have hgetel : sents[j] = s := by
              have := List.getElem?_eq_getElem hlt
              rw [hget] at this
              exact (Option.some.inj this).symm
            have hstep : greedyEnd maxChars sents (n + 1) j total =
                greedyEnd maxChars sents n (j + 1) (total + s.length + 1) := by
              simp [greedyEnd, hget, hcond]
            obtain ⟨ih1, ih2, ih3⟩ := ih (j + 1) (total + s.length + 1)
            set k := greedyEnd maxChars sents n (j + 1) (total + s.length + 1) with hk
            have hdropj : sents.drop j = s :: sents.drop (j + 1) := by
              rw [List.drop_eq_getElem_cons hlt, hgetel]
            refine ⟨?_, ?_, ?_⟩
            · rw [hstep]; omega
            · intro _; rw [hstep]; exact ih2 (by omega)
            · intro hjk
              rw [hstep] at hjk ⊢
              have hk1 : j + 1 ≤ k := ih1
              have htake : (sents.drop j).take (k - j) =
                  s :: (sents.drop (j + 1)).take (k - j - 1) := by
                rw [hdropj]
                have : k - j = (k - j - 1) + 1 := by omega
                rw [this, List.take_succ_cons]
                norm_num
              rcases Nat.lt_or_ge (j + 1) k with hlt2 | hge2
              · have := ih3 hlt2
                rw [htake]
                simp only [List.map_cons, List.sum_cons]
                have heq : k - (j + 1) = k - j - 1 := by omega
                rw [heq] at this
                omega
              · have hkj1 : k = j + 1 := le_antisymm hge2 hk1
                rw [htake, hkj1]
                simp only [List.map_cons, List.sum_cons]
                have : j + 1 - j - 1 = 0 := by omega
                rw [this]
                simp only [List.take_zero, List.map_nil, List.sum_nil]
                omega
          · refine ⟨?_, ?_, ?_⟩ <;> simp [greedyEnd, hget, hcond]

/-- With positive fuel and a start index inside the list, the packing loop
emits at least one part. -/
theorem packFrom_ne_nil (maxChars ov : Nat) (sents : List Str) (fuel i : Nat)
    (hi : i < sents.length) :
    ¬ (packFrom maxChars ov sents (fuel + 1) i = []) := by
  simp [packFrom, hi]

/-- Every emitted part fits the budget or is a single sentence. -/
theorem packFrom_parts (maxChars ov : Nat) (sents : List Str) :
    ∀ (fuel i : Nat), ∀ p ∈ packFrom maxChars ov sents fuel i,
      p.length ≤ maxChars ∨ p ∈ sents := by
  intro fuel
  induction fuel with
  | zero => intro i p hp; cases hp
  | succ n ih =>
      intro i p hp
      by_cases hi : i < sents.length
      · simp only [packFrom, if_pos hi] at hp
        rcases List.mem_cons.mp hp with rfl | hmem
        · -- the head part
          set j := greedyEnd maxChars sents (sents.length + 1) i 0 with hj
          obtain ⟨hj1, hj2, hj3⟩ := greedyEnd_spec maxChars sents (sents.length + 1) i 0
          by_cases hforced : j = i
          · rw [if_pos hforced]
            right
            have hdropi : sents.drop i = sents[i] :: sents.drop (i + 1) :=
              List.drop_eq_getElem_cons hi
            rw [hdropi, List.take_succ_cons, List.take_zero]
            have : joinSpace [sents[i]] = sents[i] := rfl
            rw [this]
            exact List.getElem_mem hi
          · rw [if_neg hforced]
            left
            have hij : i < j := lt_of_le_of_ne (hj ▸ hj1) (Ne.symm hforced)
            have hjn : j ≤ sents.length := hj ▸ hj2 (le_of_lt hi)
            have hsum := hj ▸ hj3 hij
            have hlen_take : ((sents.drop i).take (j - i)).length = j - i := by
              rw [List.length_take, List.length_drop]
              omega
            have hne : ¬ ((sents.drop i).take (j - i) = []) := by
              intro hnil
              rw [hnil] at hlen_take
              simp at hlen_take
              omega
            rw [joinSpace_length _ hne, hlen_take]
            simp only [Nat.zero_add] at hsum
            omega
        · exact ih _ p hmem
      · simp [packFrom, hi] at hp

/-- Every sentence from the start index onward lands (as an infix) in some
emitted part: consecutive windows overlap or at least abut. -/
theorem packFrom_coverage (maxChars ov : Nat) (sents : List Str) :
    ∀ (fuel i k : Nat), sents.length - i ≤ fuel → i ≤ k → k < sents.length →
    ∀ s, sents[k]? = some s →
      ∃ p ∈ packFrom maxChars ov sents fuel i, s <:+: p := by
  intro fuel
  induction fuel with
  | zero => intro i k hfuel hik hk s _; omega
  | succ n ih =>
      intro i k hfuel hik hkn s hs
      have hi : i < sents.length := lt_of_le_of_lt hik hkn
      set j := greedyEnd maxChars sents (sents.length + 1) i 0 with hj
      obtain ⟨hj1, hj2, _⟩ := greedyEnd_spec maxChars sents (sents.length + 1) i 0
      set j2 := if j = i then i + 1 else j with hj2def
      have hj2ge : i + 1 ≤ j2 := by
        rw [hj2def]
        split
        · omega
        · omega
      have hacc : (if j = i then (sents.drop i).take 1 else (sents.drop i).take (j - i)) =
          (sents.drop i).take (j2 - i) := by
        rw [hj2def]
        split
        · simp
        · rfl
      have hunfold : packFrom maxChars ov sents (n + 1) i =
          joinSpace ((sents.drop i).take (j2 - i)) ::
            packFrom maxChars ov sents n (max (i + 1) (j2 - ov)) := by
        simp only [packFrom, if_pos hi, ← hj, ← hacc, hj2def]
      rw [hunfold]
      by_cases hcase : k < max (i + 1) (j2 - ov)
      · -- covered by this part
        have hkj2 : k < j2 := by
          have h1 : max (i + 1) (j2 - ov) ≤ j2 := max_le hj2ge (Nat.sub_le _ _)
          omega
        have hidx : ((sents.drop i).take (j2 - i))[k - i]? = some s := by
          rw [List.getElem?_take, if_pos (by omega), List.getElem?_drop]
          have h2 : i + (k - i) = k := by omega
          rw [h2]
          exact hs
        exact ⟨joinSpace ((sents.drop i).take (j2 - i)), List.mem_cons_self _ _,
          infix_joinSpace _ _ (List.getElem?_mem hidx)⟩
      · -- covered by the recursion
        push_neg at hcase
        obtain ⟨p, hp, hinf⟩ := ih (max (i + 1) (j2 - ov)) k (by omega) hcase hkn s hs
        exact ⟨p, List.mem_cons_of_mem _ hp, hinf⟩

/-- When the joined text exceeds the budget and there are at least two
sentences, the packing loop emits at least two parts: the greedy first window
cannot swallow every sentence (the full pack would cost one more than the
text length), so the resume index stays inside the list. -/
theorem packFrom_two (maxChars : Nat) (sents : List Str) (hn : 2 ≤ sents.length)
    (hlen : maxChars < (joinSpace sents).length) :
    2 ≤ (packFrom maxChars 1 sents (sents.length + 1) 0).length := by
  have h0 : 0 < sents.length := by omega
  obtain ⟨hj1, hj2, hj3⟩ := greedyEnd_spec maxChars sents (sents.length + 1) 0 0
  simp only [packFrom, if_pos h0]
  set j := greedyEnd maxChars sents (sents.length + 1) 0 0 with hj
  have hi' : max (0 + 1) ((if j = 0 then 0 + 1 else j) - 1) < sents.length := by
    by_cases hjz : j = 0
    · rw [if_pos hjz]
      simp
      omega
    · rw [if_neg hjz]
      have hjn : j ≤ sents.length := hj2 (Nat.zero_le _)
      have hjne : ¬ (j = sents.length) := by
        intro heq
        have hsum := hj3 (by omega)
        rw [List.drop_zero] at hsum
        have htk : sents.take (j - 0) = sents := by
          rw [heq]
          simp [List.take_length]
        rw [htk] at hsum
        have hjoin := joinSpace_length sents (by intro hnil; rw [hnil] at hn; simp at hn)
        omega
      omega
  have h1 : ∃ fl, sents.length = fl + 1 := ⟨sents.length - 1, by omega⟩
  obtain ⟨fl, hfl⟩ := h1
  have hne := packFrom_ne_nil maxChars 1 sents fl (max (0 + 1) ((if j = 0 then 0 + 1 else j) - 1)) (by omega)
  rw [← hfl] at hne
  have := List.length_pos.mpr hne
  simp only [List.length_cons]
  omega

/-- C9 (amended): for every text and budget, `_split_long_paragraph` with one
sentence of overlap returns `[]` exactly for whitespace-only input; it never
returns `[]` for other input; when the normalised text exceeds the budget AND
splits into at least two sentences it produces at least two parts (a single
unsplittable sentence yields ONE part, which is where the original claim
fails); every part fits the budget or is a single sentence; and every
sentence of the normalised text appears as an infix of some part. -/
theorem C9_paragraph_splitter (text : Str) (maxChars : Nat) :
    (normWs text = [] → split_long_paragraph text maxChars 1 = []) ∧
    (¬ (normWs text = []) → ¬ (split_long_paragraph text maxChars 1 = [])) ∧
    (maxChars < (normWs text).length → 2 ≤ (splitSents (normWs text)).length →
      2 ≤ (split_long_paragraph text maxChars 1).length) ∧
    (∀ p ∈ split_long_paragraph text maxChars 1,
      p.length ≤ maxChars ∨ p ∈ splitSents (normWs text)) ∧
    (¬ (normWs text = []) → ∀ s ∈ splitSents (normWs text),
      ∃ p ∈ split_long_paragraph text maxChars 1, s <:+: p) := by
  have hjoin : joinSpace (splitSents (normWs text)) = normWs text :=
    joinSpace_splitSents_normWs text
  have hsne : ¬ (splitSents (normWs text) = []) := splitSentsGo_ne_nil _ _ _
  refine ⟨?_, ?_, ?_, ?_, ?_⟩
  · intro hemp
    simp [split_long_paragraph, hemp]
  · intro hne
    by_cases hle : (normWs text).length ≤ maxChars
    · simp [split_long_paragraph, hle, hne]
    · simp only [split_long_paragraph, if_neg hle]
      have h0 : 0 < (splitSents (normWs text)).length := List.length_pos.mpr hsne
      have h1 : ∃ fl, (splitSents (normWs text)).length + 1 = fl + 1 :=
        ⟨(splitSents (normWs text)).length, rfl⟩
      obtain ⟨fl, hfl⟩ := h1
      rw [hfl]
      exact packFrom_ne_nil maxChars 1 _ fl 0 (by omega)
  · intro hgt hs2
    have hle : ¬ ((normWs text).length ≤ maxChars) := by omega
    simp only [split_long_paragraph, if_neg hle]
    exact packFrom_two maxChars _ hs2 (by rw [hjoin]; exact hgt)
  · intro p hp
    by_cases hle : (normWs text).length ≤ maxChars
    · simp only [split_long_paragraph, if_pos hle] at hp
      by_cases hemp : normWs text = []
      · rw [if_pos hemp] at hp
        cases hp
      · rw [if_neg hemp] at hp
        rcases List.mem_singleton.mp hp with rfl
        left
        exact hle
    · simp only [split_long_paragraph, if_neg hle] at hp
      exact packFrom_parts maxChars 1 _ _ _ p hp
  · intro hne s hs
    by_cases hle : (normWs text).length ≤ maxChars
    · refine ⟨normWs text, ?_, ?_⟩
      · simp [split_long_paragraph, hle, hne]
      · rw [← hjoin]
        exact infix_joinSpace _ s hs
    · simp only [split_long_paragraph, if_neg hle]
      obtain ⟨k, hk⟩ := List.getElem?_of_mem hs
      have hkn : k < (splitSents (normWs text)).length := by
        by_contra hge
        rw [List.getElem?_eq_none (Nat.le_of_not_lt hge)] at hk
        cases hk
      exact packFrom_coverage maxChars 1 _ _ 0 k (by omega) (Nat.zero_le k) hkn s hk

/-- C9 (counterexample): the text "aaaaaaaa" (8 characters, no sentence
boundary) with `max_chars = 5` exceeds the budget but yields ONE part, not
the claimed two or more. -/
theorem C9_paragraph_splitter_counterexample :
    split_long_paragraph "aaaaaaaa".data 5 1 = ["aaaaaaaa".data] ∧
    5 < ("aaaaaaaa".data).length ∧
    ¬ (2 ≤ (split_long_paragraph "aaaaaaaa".data 5 1).length) := by decide

/-- C9 (witness): the splitter theorem at "Aa. Bb. Cc. Dd." with budget 8. -/
theorem C9_paragraph_splitter_witness :
    ¬ (split_long_paragraph "Aa. Bb. Cc. Dd.".data 8 1 = []) ∧
    2 ≤ (split_long_paragraph "Aa. Bb. Cc. Dd.".data 8 1).length := by
  have h := C9_paragraph_splitter "Aa. Bb. Cc. Dd.".data 8
  exact ⟨h.2.1 (by decide), h.2.2.1 (by decide) (by decide)⟩

/-- `consRes` errors exactly when its tail result errors. -/
theorem isErr_consRes (cs : List Chunk) (md : List Str)
    (r : Except String (List Chunk × List Str)) : isErr (consRes cs md r) = isErr r := by
  cases r <;> rfl

/-- `_normalize_box` raises exactly on the `badBoxFlag` condition. -/
theorem normalize_box_isErr (bbox : List ℚ) (wh : Option (ℤ × ℤ)) :
    isErr (normalize_box bbox wh) = badBoxFlag bbox wh := by
  rcases bbox with _ | ⟨a, _ | ⟨b, _ | ⟨c, _ | ⟨d, _ | ⟨e, rest⟩⟩⟩⟩⟩ <;>
    rcases wh with _ | ⟨w, hh⟩ <;>
      first
        | rfl
        | (by_cases hz : w = 0 ∨ hh = 0 <;> simp [normalize_box, badBoxFlag, isErr, hz])



/-- `tableRowChunks` never raises when the block size is nonzero. -/
theorem tableRowChunks_no_raise (trbs : Nat) (h : trbs ≠ 0) (docId : Str) (pno ro : ℤ)
    (bn : Option Box) (tcid : Str) (headers rsents : List Str) :
    isErr (tableRowChunks trbs docId pno ro bn tcid headers rsents) = false := by
  simp only [tableRowChunks]
  split
  · split
    · rename_i heff
      exact absurd heff (by omega)
    · rfl
  · rfl

/-- The emission part of the table branch never raises when
`table_row_block_size` is not zero. -/
theorem processTabEmit_no_raise (cfg : Config) (h : ¬ (cfg.table_row_block_size = some 0))
    (pno ro : ℤ) (bn : Option Box) (conv : ConvResult) (fmt mt : Str) :
    isErr (processTabEmit cfg pno ro bn conv fmt mt) = false := by
  cases hx : processTabEmit cfg pno ro bn conv fmt mt with
  | ok v => rfl
  | error e =>
      exfalso
      unfold processTabEmit at hx
      repeat' split at hx
      all_goals try (cases hx)
      rename_i trbs heqq
      simp only [] at hx
      split at hx
      · rename_i e' heq
        have hne : trbs ≠ 0 := fun h0 => h (by rw [heqq, h0])
        have hfalse := tableRowChunks_no_raise trbs hne cfg.doc_id pno ro bn
          (mkChunkId cfg.doc_id pno ro ro "0".data) conv.headers conv.row_sentences
        rw [heq] at hfalse
        exact Bool.noConfusion hfalse
      · cases hx

/-- The table branch never raises when `table_row_block_size` is not zero. -/
theorem processTab_no_raise (cfg : Config) (h : ¬ (cfg.table_row_block_size = some 0))
    (pno ro : ℤ) (bn : Option Box) (txt : Str) :
    isErr (processTab cfg pno ro bn txt) = false := by
  by_cases h1 : txt = [] ∨ (pyStrip txt).length < 30
  · rw [processTab, if_pos h1]; rfl
  · by_cases h2 : txt.length > 50000
    · rw [processTab, if_neg h1, if_pos h2]; rfl
    · by_cases h3 : ¬ validate_html_table txt
      · rw [processTab, if_neg h1, if_neg h2, if_pos h3]; rfl
      · rw [processTab, if_neg h1, if_neg h2, if_neg h3]
        exact processTabEmit_no_raise cfg h pno ro bn _ _ _

/-- One page's element loop raises exactly when some element's bbox fails the
4-way unpacking, provided the row block size is not zero. -/
theorem mapElems_isErr (cfg : Config) (h : ¬ (cfg.table_row_block_size = some 0))
    (pno : ℤ) (wh : Option (ℤ × ℤ)) :
    ∀ fuel es, isErr (mapElems cfg pno wh fuel es)
      = hasBadBbox cfg.exclude_labels cfg.fuse_figure_and_caption wh fuel es := by
  intro fuel
  induction fuel with
  | zero => intro es; rfl
  | succ fuel ih =>
      intro es
      cases es with
      | nil => rfl
      | cons el rest =>
          simp only [mapElems, hasBadBbox]
          by_cases hex : pyLower (el.label.getD []) ∈ cfg.exclude_labels
          · rw [if_pos hex, if_pos hex, ih]
          · rw [if_neg hex, if_neg hex]
            cases hnb : normalize_box (el.bbox.getD []) wh with
            | error e =>
                have hbad : badBoxFlag (el.bbox.getD []) wh = true := by
                  have hb := normalize_box_isErr (el.bbox.getD []) wh
                  rw [hnb] at hb
                  exact hb.symm
                rw [if_pos hbad]
                rfl
            | ok bbox_norm =>
                have hbad : badBoxFlag (el.bbox.getD []) wh = false := by
                  have hb := normalize_box_isErr (el.bbox.getD []) wh
                  rw [hnb] at hb
                  exact hb.symm
                have hbad2 : ¬ (badBoxFlag (el.bbox.getD []) wh = true) := by
                  simp [hbad]
                rw [if_neg hbad2]
                dsimp only
                by_cases hfig : pyLower (el.label.getD []) = "fig".data ∧
                    cfg.fuse_figure_and_caption = true
                · rw [if_pos hfig, if_pos hfig]
                  cases rest with
                  | nil => rfl
                  | cons cap rest2 =>
                      dsimp only
                      by_cases hcap : pyLower (cap.label.getD []) = "cap".data
                      · rw [if_pos hcap, if_pos hcap, isErr_consRes, ih]
                      · rw [if_neg hcap, if_neg hcap, isErr_consRes, ih]
                · rw [if_neg hfig, if_neg hfig]
                  by_cases htab : pyLower (el.label.getD []) = "tab".data
                  · rw [if_pos htab]
                    cases hp : processTab cfg pno (el.reading_order.getD 0) bbox_norm
                        (pyStrip (el.text.getD [])) with
                    | error e =>
                        have hnr := processTab_no_raise cfg h pno (el.reading_order.getD 0)
                          bbox_norm (pyStrip (el.text.getD []))
                        rw [hp] at hnr
                        exact absurd hnr (by simp [isErr])
                    | ok p => rw [isErr_consRes, ih]
                  · rw [if_neg htab]
                    by_cases hcp : pyLower (el.label.getD []) = "cap".data
                    · rw [if_pos hcp]
                      by_cases htxt : ¬ (pyStrip (el.text.getD []) = [])
                      · rw [if_pos htxt, isErr_consRes, ih]
                      · rw [if_neg htxt, ih]
                    · rw [if_neg hcp]
                      by_cases htxt : ¬ (pyStrip (el.text.getD []) = [])
                      · rw [if_pos htxt, isErr_consRes, ih]
                      · rw [if_neg htxt, ih]

/-- The page loop raises exactly when some page has a bad bbox, provided the
row block size is not zero. -/
theorem mapPages_isErr (cfg : Config) (h : ¬ (cfg.table_row_block_size = some 0)) :
    ∀ pages : List PageD, isErr (mapPages cfg pages)
      = pages.any (fun page =>
          let elements := sortBy elemLt page.elements
          hasBadBbox cfg.exclude_labels cfg.fuse_figure_and_caption
            (cfg.page_dims (page.page_number.getD 1)) (elements.length + 1) elements) := by
  intro pages
  induction pages with
  | nil => rfl
  | cons page rest ih =>
      simp only [mapPages, List.any_cons]
      cases hm : mapElems cfg (page.page_number.getD 1)
          (cfg.page_dims (page.page_number.getD 1))
          ((sortBy elemLt page.elements).length + 1) (sortBy elemLt page.elements) with
      | error e =>
          have hb := mapElems_isErr cfg h (page.page_number.getD 1)
            (cfg.page_dims (page.page_number.getD 1))
            ((sortBy elemLt page.elements).length + 1) (sortBy elemLt page.elements)
          rw [hm] at hb
          dsimp only
          rw [← hb]
          rfl
      | ok p =>
          have hb := mapElems_isErr cfg h (page.page_number.getD 1)
            (cfg.page_dims (page.page_number.getD 1))
            ((sortBy elemLt page.elements).length + 1) (sortBy elemLt page.elements)
          rw [hm] at hb
          dsimp only
          rw [← hb, isErr_consRes, ih]
          rfl

/-- C2: for every configuration whose `table_row_block_size` is not zero and
every input, the transform raises exactly when `transformRaises` holds: the
top-level shape is unrecognized, or some page contains a non-excluded,
non-fusion-skipped element whose truthy bbox has a length other than 4 while
both page dimensions are known and non-zero.  This refutes the claim that the
unrecognized shape is the only raise: a malformed bbox also raises. -/
theorem C2_failure_semantics (cfg : Config) (h : ¬ (cfg.table_row_block_size = some 0))
    (input : RecInput) :
    isErr (transform_dolphin_to_oxcart_preserving_labels cfg input)
      = transformRaises cfg input := by
  unfold transform_dolphin_to_oxcart_preserving_labels transformRaises
  cases hs : shapeOf input with
  | none => rfl
  | some pages =>
      dsimp only
      cases hm : mapPages cfg pages with
      | error e =>
          have hp := mapPages_isErr cfg h pages
          rw [hm] at hp
          exact hp
      | ok res =>
          have hp := mapPages_isErr cfg h pages
          rw [hm] at hp
          exact hp

/-- C2 (counterexample): an input of recognized shape on which the transform
still raises — one element with bbox `[1, 2, 3]` under page dims (50, 50). -/
theorem C2_failure_semantics_counterexample :
    shapeOf (.listOf [.elemItem elC2]) ≠ none ∧
    isErr (transform_dolphin_to_oxcart_preserving_labels cfgC2
      (.listOf [.elemItem elC2])) = true := by
  constructor
  · with_unfolding_all decide
  · with_unfolding_all decide

/-- C2 (witness): the theorem applied at the concrete counterexample input. -/
theorem C2_failure_semantics_witness :
    ¬ (cfgC2.table_row_block_size = some 0) ∧
    isErr (transform_dolphin_to_oxcart_preserving_labels cfgC2 (.listOf [.elemItem elC2]))
      = transformRaises cfgC2 (.listOf [.elemItem elC2]) :=
  ⟨by decide, C2_failure_semantics cfgC2 (by decide) (.listOf [.elemItem elC2])⟩

/-- Members of an `insertBy` result come from the inserted element or the
list. -/
theorem insertBy_mem {α : Type} (lt : α → α → Bool) (c : α) :
    ∀ (l : List α) (x : α), x ∈ insertBy lt c l → x = c ∨ x ∈ l := by
  intro l
  induction l with
  | nil =>
      intro x hx
      simp [insertBy] at hx
      exact Or.inl hx
  | cons a as ih =>
      intro x hx
      rw [insertBy] at hx
      split at hx
      · rcases List.mem_cons.mp hx with rfl | hx
        · exact Or.inl rfl
        · exact Or.inr hx
      · rcases List.mem_cons.mp hx with rfl | hx
        · exact Or.inr (List.mem_cons_self _ _)
        · rcases ih x hx with h1 | h1
          · exact Or.inl h1
          · exact Or.inr (List.mem_cons_of_mem _ h1)

/-- Members of a `sortBy` result are members of the original list. -/
theorem sortBy_mem {α : Type} (lt : α → α → Bool) :
    ∀ (l : List α) (x : α), x ∈ sortBy lt l → x ∈ l := by
  intro l
  induction l with
  | nil => intro x hx; exact absurd hx (by simp [sortBy])
  | cons a as ih =>
      intro x hx
      rcases insertBy_mem lt a (sortBy lt as) x hx with rfl | hx
      · exact List.mem_cons_self _ _
      · exact List.mem_cons_of_mem _ (ih x hx)

/-- The contextual absorption loop keeps the current chunk's type. -/
theorem absorbCtx_type : ∀ (l : List Chunk) (c : Chunk),
    (absorbCtx c l).1.chunk_type = c.chunk_type := by
  intro l
  induction l with
  | nil => intro c; rfl
  | cons nxt rest ih =>
      intro c
      rw [absorbCtx]
      split
      · exact (ih (merge_chunks c nxt)).trans rfl
      · rfl

/-- The contextual absorption loop keeps the current chunk's id. -/
theorem absorbCtx_id : ∀ (l : List Chunk) (c : Chunk),
    (absorbCtx c l).1.chunk_id = c.chunk_id := by
  intro l
  induction l with
  | nil => intro c; rfl
  | cons nxt rest ih =>
      intro c
      rw [absorbCtx]
      split
      · exact (ih (merge_chunks c nxt)).trans rfl
      · rfl

/-- The unconsumed rest of the contextual absorption loop comes from the
input. -/
theorem absorbCtx_rest : ∀ (l : List Chunk) (c x : Chunk),
    x ∈ (absorbCtx c l).2 → x ∈ l := by
  intro l
  induction l with
  | nil => intro c x hx; exact hx
  | cons nxt rest ih =>
      intro c x hx
      rw [absorbCtx] at hx
      split at hx
      · exact List.mem_cons_of_mem _ (ih _ x hx)
      · exact hx

/-- Every chunk produced by the contextual grouping loop inherits the type
and id of some input chunk. -/
theorem groupCtxGo_from : ∀ (fuel : Nat) (l : List Chunk) (x : Chunk),
    x ∈ groupCtxGo fuel l →
    ∃ c ∈ l, x.chunk_type = c.chunk_type ∧ x.chunk_id = c.chunk_id := by
  intro fuel
  induction fuel with
  | zero => intro l x hx; exact ⟨x, hx, rfl, rfl⟩
  | succ fuel ih =>
      intro l x hx
      cases l with
      | nil => cases hx
      | cons c rest =>
          simp only [groupCtxGo] at hx
          rcases List.mem_cons.mp hx with rfl | hx
          · exact ⟨c, List.mem_cons_self _ _, absorbCtx_type rest c, absorbCtx_id rest c⟩
          · obtain ⟨c2, hc2, h1, h2⟩ := ih _ x hx
            exact ⟨c2, List.mem_cons_of_mem _ (absorbCtx_rest rest c c2 hc2), h1, h2⟩

/-- The unconsumed rest of the small-chunk absorption loop comes from the
input. -/
theorem absorbSmall_rest (m M : Nat) (cur : Chunk) :
    ∀ (l : List Chunk) (ctext : Str) (cbox : Option Box) (roEnd : ℤ) (count : Nat)
      (x : Chunk), x ∈ (absorbSmall m M cur ctext cbox roEnd count l).2.2.2.2 → x ∈ l := by
  intro l
  induction l with
  | nil => intro _ _ _ _ x hx; exact hx
  | cons nxt rest ih =>
      intro ctext cbox roEnd count x hx
      simp only [absorbSmall] at hx
      split at hx
      · split at hx
        · exact List.mem_cons_of_mem _ (ih _ _ _ _ x hx)
        · exact hx
      · exact hx

/-- Every chunk produced by the small-chunk grouping loop inherits the type
and id of some input chunk. -/
theorem groupSmallGo_from (m M : Nat) : ∀ (fuel : Nat) (l : List Chunk) (x : Chunk),
    x ∈ groupSmallGo m M fuel l →
    ∃ c ∈ l, x.chunk_type = c.chunk_type ∧ x.chunk_id = c.chunk_id := by
  intro fuel
  induction fuel with
  | zero => intro l x hx; exact ⟨x, hx, rfl, rfl⟩
  | succ fuel ih =>
      intro l x hx
      cases l with
      | nil => cases hx
      | cons c rest =>
          simp only [groupSmallGo] at hx
          split at hx
          · rcases List.mem_cons.mp hx with h | hx
            · exact ⟨c, List.mem_cons_self _ _, by rw [h], by rw [h]⟩
            · obtain ⟨c2, hc2, h1, h2⟩ := ih _ x hx
              exact ⟨c2, List.mem_cons_of_mem _ hc2, h1, h2⟩
          · rcases List.mem_cons.mp hx with h | hx
            · exact ⟨c, List.mem_cons_self _ _, by rw [h], by rw [h]⟩
            · obtain ⟨c2, hc2, h1, h2⟩ := ih _ x hx
              exact ⟨c2, List.mem_cons_of_mem _
                (absorbSmall_rest m M c rest c.text c.grounding.box
                  c.metadata.reading_order_range.1 1 c2 hc2), h1, h2⟩

/-- The box repair keeps the chunk's type. -/
theorem repairChunk_type (c : Chunk) : (repairChunk c).chunk_type = c.chunk_type := by
  unfold repairChunk
  split <;> rfl

/-- The box repair keeps the chunk's id. -/
theorem repairChunk_id (c : Chunk) : (repairChunk c).chunk_id = c.chunk_id := by
  unfold repairChunk
  split <;> rfl

/-- Every chunk of a validated document inherits the type and id of some
chunk of the input document. -/
theorem validate_mem (d : Document) :
    ∀ x ∈ (validate_and_enhance_chunks d).chunks,
      ∃ c ∈ d.chunks, x.chunk_type = c.chunk_type ∧ x.chunk_id = c.chunk_id := by
  intro x hx
  unfold validate_and_enhance_chunks at hx
  split at hx
  · exact ⟨x, hx, rfl, rfl⟩
  · dsimp only at hx
    rw [List.mem_map] at hx
    obtain ⟨c, hc, rfl⟩ := hx
    exact ⟨c, hc, repairChunk_type c, repairChunk_id c⟩

/-- The enhanced classifier only produces the five content/position types,
all of which are producible types. -/
theorem classify_mem (t : Str) (b : Option Box) :
    classify_chunk_type_enhanced t b ∈ elevenChunkTypes := by
  unfold classify_chunk_type_enhanced
  cases b with
  | none => dsimp only; split_ifs <;> decide
  | some bx => dsimp only; split_ifs <;> decide

/-- The label-to-type mapping only produces producible types. -/
theorem dolphin2type_mem (label : Str) : dolphin2type label ∈ elevenChunkTypes := by
  unfold dolphin2type
  split_ifs <;> decide

/-- Invariant of the sentence accumulator of `split_long_chunk`: every closed
part is a copy of the chunk with a `_split_N` id. -/
theorem splitStep_foldl_inv (c : Chunk) (m : Nat) :
    ∀ (sents : List Str) (st : List Chunk × Str),
      (∀ p ∈ st.1, p.chunk_type = c.chunk_type ∧
        ∃ k : Nat, p.chunk_id = c.chunk_id ++ "_split_".data ++ natStr k) →
      ∀ p ∈ (sents.foldl (splitStep c m c.chunk_id) st).1,
        p.chunk_type = c.chunk_type ∧
        ∃ k : Nat, p.chunk_id = c.chunk_id ++ "_split_".data ++ natStr k := by
  intro sents
  induction sents with
  | nil => intro st hst; exact hst
  | cons s rest ih =>
      intro st hst
      rw [List.foldl_cons]
      apply ih
      unfold splitStep
      split
      · exact hst
      · split
        · intro p hp
          rcases List.mem_append.mp hp with hp | hp
          · exact hst p hp
          · rcases List.mem_cons.mp hp with h | hp
            · exact ⟨by rw [h], st.1.length, by rw [h]⟩
            · cases hp
        · exact hst

/-- Every part of a re-split chunk keeps the chunk's type and carries either
the original id or the original id with a `_split_N` suffix. -/
theorem split_long_chunk_parts (c : Chunk) (m : Nat) :
    ∀ p ∈ split_long_chunk c m, p.chunk_type = c.chunk_type ∧
      (p.chunk_id = c.chunk_id ∨
        ∃ k : Nat, p.chunk_id = c.chunk_id ++ "_split_".data ++ natStr k) := by
  unfold split_long_chunk
  split
  · intro p hp
    rcases List.mem_cons.mp hp with h | hp
    · exact ⟨by rw [h], Or.inl (by rw [h])⟩
    · cases hp
  · dsimp only
    have base : ∀ q ∈ ((splitSents c.text).foldl (splitStep c m c.chunk_id) ([], [])).1,
        q.chunk_type = c.chunk_type ∧
        ∃ k : Nat, q.chunk_id = c.chunk_id ++ "_split_".data ++ natStr k := by
      apply splitStep_foldl_inv
      intro q hq
      cases hq
    split
    · intro p hp
      split at hp
      · rcases List.mem_cons.mp hp with h | hp
        · exact ⟨by rw [h], Or.inl (by rw [h])⟩
        · cases hp
      · rcases List.mem_append.mp hp with hp | hp
        · obtain ⟨h1, k, h2⟩ := base p hp
          exact ⟨h1, Or.inr ⟨k, h2⟩⟩
        · rcases List.mem_cons.mp hp with h | hp
          · exact ⟨by rw [h],
              Or.inr ⟨((splitSents c.text).foldl (splitStep c m c.chunk_id) ([], [])).1.length,
                by rw [h]⟩⟩
          · cases hp
    · intro p hp
      split at hp
      · rcases List.mem_cons.mp hp with h | hp
        · exact ⟨by rw [h], Or.inl (by rw [h])⟩
        · cases hp
      · obtain ⟨h1, k, h2⟩ := base p hp
        exact ⟨h1, Or.inr ⟨k, h2⟩⟩

/-- Every chunk produced by `group_chunks_contextually` inherits the type and
id of some input chunk. -/
theorem groupCtx_from (l : List Chunk) (x : Chunk) (hx : x ∈ group_chunks_contextually l) :
    ∃ c ∈ l, x.chunk_type = c.chunk_type ∧ x.chunk_id = c.chunk_id := by
  obtain ⟨c, hc, h1, h2⟩ := groupCtxGo_from _ _ x hx
  exact ⟨c, sortBy_mem _ _ c hc, h1, h2⟩

/-- Every chunk of an optimized document has a producible (reclassified)
type, and an id that is the id of some input chunk, possibly with a
`_split_N` suffix. -/
theorem optimize_mem (d : Document) (now : Str) (m : Nat) :
    ∀ x ∈ (optimize_chunks_for_rag d now m).chunks,
      x.chunk_type ∈ elevenChunkTypes ∧
      ∃ c0 ∈ d.chunks, x.chunk_id = c0.chunk_id ∨
        ∃ k : Nat, x.chunk_id = c0.chunk_id ++ "_split_".data ++ natStr k := by
  intro x hx
  unfold optimize_chunks_for_rag at hx
  dsimp only at hx
  split at hx
  · rename_i hemp
    rw [hemp] at hx
    cases hx
  · dsimp only at hx
    rw [List.mem_flatMap] at hx
    obtain ⟨g, hg, hx⟩ := hx
    obtain ⟨c2, hc2, hty, hid⟩ := groupCtx_from _ g hg
    rw [List.mem_map] at hc2
    obtain ⟨c0, hc0, hceq⟩ := hc2
    have hty2 : g.chunk_type = classify_chunk_type_enhanced c0.text c0.grounding.box := by
      rw [hty, ← hceq]
    have hid2 : g.chunk_id = c0.chunk_id := by
      rw [hid, ← hceq]
    split at hx
    · obtain ⟨hpty, hpid⟩ := split_long_chunk_parts g m x hx
      refine ⟨?_, c0, hc0, ?_⟩
      · rw [hpty, hty2]
        exact classify_mem c0.text c0.grounding.box
      · rcases hpid with h | ⟨k, h⟩
        · exact Or.inl (by rw [h, hid2])
        · exact Or.inr ⟨k, by rw [h, hid2]⟩
    · rcases List.mem_cons.mp hx with h | hx
      · refine ⟨?_, c0, hc0, Or.inl (by rw [h, hid2])⟩
        rw [h, hty2]
        exact classify_mem c0.text c0.grounding.box
      · cases hx

/-- The `"0"` suffix used by single-part chunk ids is a base suffix. -/
theorem emitted_zero_suffix (docId : Str) (pno s e : ℤ) :
    IsBaseChunkId docId (mkChunkId docId pno s e "0".data) :=
  ⟨pno, s, e, "0".data, ⟨0, Or.inl (by decide)⟩, rfl⟩

/-- Chunks of a text-bearing element have a label-mapped type and a
base-format id. -/
theorem textElementChunks_mem (cfg : Config) (pno ro : ℤ) (label : Str) (bn : Option Box)
    (txt : Str) : ∀ c ∈ (textElementChunks cfg pno ro label bn txt).1,
      EmittedChunk cfg.doc_id c := by
  intro c hc
  unfold textElementChunks at hc
  dsimp only at hc
  rw [List.mem_map] at hc
  obtain ⟨pr, hpr, hpr2⟩ := hc
  rw [List.mem_map] at hpr
  obtain ⟨sip, hsip, hsip2⟩ := hpr
  constructor
  · rw [← hpr2, ← hsip2]
    exact dolphin2type_mem label
  · rw [← hpr2, ← hsip2]
    exact ⟨pno, ro, ro, natStr sip.1, ⟨sip.1, Or.inl rfl⟩, rfl⟩

/-- Table-row chunks have type `table_row` and a base-format id. -/
theorem tableRowChunks_mem (trbs : Nat) (docId : Str) (pno ro : ℤ) (bn : Option Box)
    (tcid : Str) (headers rsents : List Str) (l : List Chunk)
    (h : tableRowChunks trbs docId pno ro bn tcid headers rsents = .ok l) :
    ∀ c ∈ l, EmittedChunk docId c := by
  intro c hc
  unfold tableRowChunks at h
  split at h
  · dsimp only at h
    split at h
    · cases h
    · cases h
      rw [List.mem_filterMap] at hc
      obtain ⟨sb, hsb, hfc⟩ := hc
      split at hfc
      · cases hfc
      · split at hfc
        · cases hfc
        · cases hfc
          refine ⟨?_, pno, ro, ro, "rows".data ++ natStr sb.1, ⟨sb.1, Or.inr rfl⟩, rfl⟩
          show "table_row".data ∈ elevenChunkTypes
          decide
  · cases h
    cases hc

/-- Chunks emitted by the table-emission step are producible-typed and carry
base-format ids. -/
theorem processTabEmit_mem (cfg : Config) (pno ro : ℤ) (bn : Option Box)
    (conv : ConvResult) (fmt mt : Str) (res : List Chunk × List Str)
    (h : processTabEmit cfg pno ro bn conv fmt mt = .ok res) :
    ∀ c ∈ res.1, EmittedChunk cfg.doc_id c := by
  intro c hc
  unfold processTabEmit at h
  split at h
  · cases h
    simp at hc
  · split at h
    · cases h
      simp at hc
    · split at h
      · cases h
        simp at hc
      · dsimp only at h
        split at h
        · cases h
          rcases List.mem_cons.mp hc with hEq | hc
          · refine ⟨?_, ?_⟩
            · rw [hEq]
              show "table".data ∈ elevenChunkTypes
              decide
            · rw [hEq]
              exact emitted_zero_suffix cfg.doc_id pno ro ro
          · cases hc
        · rename_i trbs htrbs
          split at h
          · cases h
          · rename_i rcs hrcs
            cases h
            rcases List.mem_cons.mp hc with hEq | hc
            · refine ⟨?_, ?_⟩
              · rw [hEq]
                show "table".data ∈ elevenChunkTypes
                decide
              · rw [hEq]
                exact emitted_zero_suffix cfg.doc_id pno ro ro
            · exact tableRowChunks_mem trbs cfg.doc_id pno ro bn
                (mkChunkId cfg.doc_id pno ro ro "0".data) conv.headers conv.row_sentences
                rcs hrcs c hc

/-- Chunks emitted by the table branch are producible-typed and carry
base-format ids. -/
theorem processTab_mem (cfg : Config) (pno ro : ℤ) (bn : Option Box) (txt : Str)
    (res : List Chunk × List Str) (h : processTab cfg pno ro bn txt = .ok res) :
    ∀ c ∈ res.1, EmittedChunk cfg.doc_id c := by
  unfold processTab at h
  split at h
  · cases h
    intro c hc
    simp at hc
  · split at h
    · cases h
      intro c hc
      simp at hc
    · split at h
      · cases h
        intro c hc
        simp at hc
      · dsimp only at h
        exact processTabEmit_mem cfg pno ro bn _ _ _ res h

/-- Inversion of `consRes` on success. -/
theorem consRes_ok {cs : List Chunk} {md : List Str} {r : Except String (List Chunk × List Str)}
    {res : List Chunk × List Str} (h : consRes cs md r = .ok res) :
    ∃ p, r = .ok p ∧ res.1 = cs ++ p.1 := by
  cases r with
  | error e => cases h
  | ok p =>
      cases h
      exact ⟨p, rfl, rfl⟩

/-- Every chunk produced by the element loop is producible-typed and carries
a base-format id. -/
theorem mapElems_chunks (cfg : Config) (pno : ℤ) (wh : Option (ℤ × ℤ)) :
    ∀ (fuel : Nat) (es : List Element) (res : List Chunk × List Str),
      mapElems cfg pno wh fuel es = .ok res →
      ∀ c ∈ res.1, EmittedChunk cfg.doc_id c := by
  intro fuel
  induction fuel with
  | zero =>
      intro es res h c hc
      simp only [mapElems] at h
      cases h
      simp at hc
  | succ fuel ih =>
      intro es res h c hc
      cases es with
      | nil =>
          simp only [mapElems] at h
          cases h
          simp at hc
      | cons el rest =>
          simp only [mapElems] at h
          by_cases hex : pyLower (el.label.getD []) ∈ cfg.exclude_labels
          · rw [if_pos hex] at h
            exact ih rest res h c hc
          · rw [if_neg hex] at h
            cases hnb : normalize_box (el.bbox.getD []) wh with
            | error e => rw [hnb] at h; cases h
            | ok bbox_norm =>
                rw [hnb] at h
                dsimp only at h
                by_cases hfig : pyLower (el.label.getD []) = "fig".data ∧
                    cfg.fuse_figure_and_caption = true
                · rw [if_pos hfig] at h
                  cases rest with
                  | nil =>
                      cases h
                      rcases List.mem_cons.mp hc with hEq | hc
                      · refine ⟨?_, ?_⟩
                        · rw [hEq]
                          show "figure".data ∈ elevenChunkTypes
                          decide
                        · rw [hEq]
                          exact emitted_zero_suffix cfg.doc_id pno (el.reading_order.getD 0)
                            (el.reading_order.getD 0)
                      · cases hc
                  | cons cap rest2 =>
                      dsimp only at h
                      by_cases hcap : pyLower (cap.label.getD []) = "cap".data
                      · rw [if_pos hcap] at h
                        obtain ⟨p, hp, hres⟩ := consRes_ok h
                        rw [hres] at hc
                        rcases List.mem_append.mp hc with hc | hc
                        · rcases List.mem_cons.mp hc with hEq | hc
                          · refine ⟨?_, ?_⟩
                            · rw [hEq]
                              show "figure".data ∈ elevenChunkTypes
                              decide
                            · rw [hEq]
                              exact emitted_zero_suffix cfg.doc_id pno (el.reading_order.getD 0)
                                (cap.reading_order.getD (el.reading_order.getD 0))
                          · cases hc
                        · exact ih rest2 p hp c hc
                      · rw [if_neg hcap] at h
                        obtain ⟨p, hp, hres⟩ := consRes_ok h
                        rw [hres] at hc
                        rcases List.mem_append.mp hc with hc | hc
                        · rcases List.mem_cons.mp hc with hEq | hc
                          · refine ⟨?_, ?_⟩
                            · rw [hEq]
                              show "figure".data ∈ elevenChunkTypes
                              decide
                            · rw [hEq]
                              exact emitted_zero_suffix cfg.doc_id pno (el.reading_order.getD 0)
                                (el.reading_order.getD 0)
                          · cases hc
                        · exact ih (cap :: rest2) p hp c hc
                · rw [if_neg hfig] at h
                  by_cases htab : pyLower (el.label.getD []) = "tab".data
                  · rw [if_pos htab] at h
                    cases hpt : processTab cfg pno (el.reading_order.getD 0) bbox_norm
                        (pyStrip (el.text.getD [])) with
                    | error e => rw [hpt] at h; cases h
                    | ok p =>
                        rw [hpt] at h
                        dsimp only at h
                        obtain ⟨q, hq, hres⟩ := consRes_ok h
                        rw [hres] at hc
                        rcases List.mem_append.mp hc with hc | hc
                        · exact processTab_mem cfg pno (el.reading_order.getD 0) bbox_norm
                            (pyStrip (el.text.getD [])) p hpt c hc
                        · exact ih rest q hq c hc
                  · rw [if_neg htab] at h
                    by_cases hcp : pyLower (el.label.getD []) = "cap".data
                    · rw [if_pos hcp] at h
                      by_cases htxt : ¬ (pyStrip (el.text.getD []) = [])
                      · rw [if_pos htxt] at h
                        obtain ⟨p, hp, hres⟩ := consRes_ok h
                        rw [hres] at hc
                        rcases List.mem_append.mp hc with hc | hc
                        · rcases List.mem_cons.mp hc with hEq | hc
                          · refine ⟨?_, ?_⟩
                            · rw [hEq]
                              show "caption".data ∈ elevenChunkTypes
                              decide
                            · rw [hEq]
                              exact emitted_zero_suffix cfg.doc_id pno (el.reading_order.getD 0)
                                (el.reading_order.getD 0)
                          · cases hc
                        · exact ih rest p hp c hc
                      · rw [if_neg htxt] at h
                        exact ih rest res h c hc
                    · rw [if_neg hcp] at h
                      by_cases htxt : ¬ (pyStrip (el.text.getD []) = [])
                      · rw [if_pos htxt] at h
                        obtain ⟨p, hp, hres⟩ := consRes_ok h
                        rw [hres] at hc
                        rcases List.mem_append.mp hc with hc | hc
                        · exact textElementChunks_mem cfg pno (el.reading_order.getD 0)
                            (pyLower (el.label.getD [])) bbox_norm (pyStrip (el.text.getD [])) c hc
                        · exact ih rest p hp c hc
                      · rw [if_neg htxt] at h
                        exact ih rest res h c hc

/-- Every chunk produced by the page loop is producible-typed and carries a
base-format id. -/
theorem mapPages_chunks (cfg : Config) :
    ∀ (pages : List PageD) (res : List Chunk × List Str),
      mapPages cfg pages = .ok res → ∀ c ∈ res.1, EmittedChunk cfg.doc_id c := by
  intro pages
  induction pages with
  | nil =>
      intro res h c hc
      simp only [mapPages] at h
      cases h
      simp at hc
  | cons page rest ih =>
      intro res h c hc
      simp only [mapPages] at h
      cases hm : mapElems cfg (page.page_number.getD 1)
          (cfg.page_dims (page.page_number.getD 1))
          ((sortBy elemLt page.elements).length + 1) (sortBy elemLt page.elements) with
      | error e => rw [hm] at h; cases h
      | ok p =>
          rw [hm] at h
          dsimp only at h
          obtain ⟨q, hq, hres⟩ := consRes_ok h
          rw [hres] at hc
          rcases List.mem_append.mp hc with hc | hc
          · exact mapElems_chunks cfg (page.page_number.getD 1)
              (cfg.page_dims (page.page_number.getD 1))
              ((sortBy elemLt page.elements).length + 1) (sortBy elemLt page.elements) p hm c hc
          · exact ih q hq c hc

/-- Every chunk of a successfully transformed document has one of the eleven
producible types and a pipeline-format id. -/
theorem transform_chunks_from (cfg : Config) (input : RecInput) (doc : Document)
    (hok : transform_dolphin_to_oxcart_preserving_labels cfg input = .ok doc) :
    ∀ c ∈ doc.chunks, c.chunk_type ∈ elevenChunkTypes ∧
      IsPipelineChunkId cfg.doc_id c.chunk_id := by
  unfold transform_dolphin_to_oxcart_preserving_labels at hok
  cases hs : shapeOf input with
  | none => rw [hs] at hok; cases hok
  | some pages_in =>
      rw [hs] at hok
      dsimp only at hok
      cases hm : mapPages cfg pages_in with
      | error e => rw [hm] at hok; cases hok
      | ok res =>
          rw [hm] at hok
          dsimp only at hok
          cases hok
          intro c hc
          obtain ⟨c2, hc2, hty, hid⟩ := validate_mem _ c hc
          rw [hty, hid]
          by_cases hopt : cfg.optimize_for_rag = true
          · rw [if_pos hopt] at hc2
            obtain ⟨hty2, c0, hc0, hid0⟩ :=
              optimize_mem _ cfg.now cfg.max_chunk_length c2 hc2
            have hfrom : ∃ c00, EmittedChunk cfg.doc_id c00 ∧ c0.chunk_id = c00.chunk_id := by
              split at hc0
              · obtain ⟨c00, hc00, h1, h2⟩ := groupSmallGo_from 100 1200 _ _ c0 hc0
                exact ⟨c00, mapPages_chunks cfg pages_in res hm c00 hc00, h2⟩
              · exact ⟨c0, mapPages_chunks cfg pages_in res hm c0 hc0, rfl⟩
            obtain ⟨c00, ⟨hE1, hbase⟩, hideq⟩ := hfrom
            refine ⟨hty2, c00.chunk_id, hbase, ?_⟩
            rcases hid0 with h | ⟨k, h⟩
            · exact Or.inl (h.trans hideq)
            · exact Or.inr ⟨k, by rw [h, hideq]⟩
          · rw [if_neg hopt] at hc2
            have hfrom : ∃ c00, EmittedChunk cfg.doc_id c00 ∧
                c2.chunk_type = c00.chunk_type ∧ c2.chunk_id = c00.chunk_id := by
              split at hc2
              · obtain ⟨c00, hc00, h1, h2⟩ := groupSmallGo_from 100 1200 _ _ c2 hc2
                exact ⟨c00, mapPages_chunks cfg pages_in res hm c00 hc00, h1, h2⟩
              · exact ⟨c2, mapPages_chunks cfg pages_in res hm c2 hc2, rfl, rfl⟩
            obtain ⟨c00, ⟨htyE, hbase⟩, htyeq, hideq⟩ := hfrom
            exact ⟨by rw [htyeq]; exact htyE, c00.chunk_id, hbase, Or.inl hideq⟩

/-- C6: every chunk in the final corpus has one of the ELEVEN producible
chunk types — the spec's nine plus `header` and `footer`.  The spec's
nine-type list is refuted by the counterexample below, where the default
optimizer reclassifies a top-of-page paragraph as `header`. -/
theorem C6_chunk_type_invariant (cfg : Config) (input : RecInput) (doc : Document)
    (hok : transform_dolphin_to_oxcart_preserving_labels cfg input = .ok doc) :
    ∀ c ∈ doc.chunks, c.chunk_type ∈ elevenChunkTypes :=
  fun c hc => (transform_chunks_from cfg input doc hok c hc).1

/-- C6 (counterexample): a short top-of-page paragraph comes out of the
transform with chunk type `header`, which is not one of the nine types the
claim allows. -/
theorem C6_chunk_type_counterexample :
    Except.map (fun d => d.chunks.map (fun c => c.chunk_type))
        (transform_dolphin_to_oxcart_preserving_labels cfgC6 (.listOf [.elemItem elC6]))
      = .ok ["header".data] ∧ "header".data ∉ nineChunkTypes := by
  constructor
  · with_unfolding_all decide
  · decide

/-- C6 (witness): the invariant applied at a concrete one-paragraph input. -/
theorem C6_chunk_type_invariant_witness :
    transform_dolphin_to_oxcart_preserving_labels {} inputC6w = .ok docC6w ∧
    ∀ c ∈ docC6w.chunks, c.chunk_type ∈ elevenChunkTypes :=
  ⟨by with_unfolding_all rfl,
   C6_chunk_type_invariant {} inputC6w docC6w (by with_unfolding_all rfl)⟩

/-- C8: every chunk id in the final corpus has the base format
`doc_id:page(03d):ro_start-ro_end:suffix` (suffix a part index or `rows` plus
an index), possibly extended with `_split_N` by the post-grouping re-split.
Uniqueness, also claimed, is refuted by the counterexample below. -/
theorem C8_chunk_id_format (cfg : Config) (input : RecInput) (doc : Document)
    (hok : transform_dolphin_to_oxcart_preserving_labels cfg input = .ok doc) :
    ∀ c ∈ doc.chunks, IsPipelineChunkId cfg.doc_id c.chunk_id :=
  fun c hc => (transform_chunks_from cfg input doc hok c hc).2

/-- C8 (counterexample): two elements sharing a reading order produce two
chunks with the SAME chunk id, so chunk ids are not unique within a
document. -/
theorem C8_chunk_id_counterexample :
    Except.map (fun d => d.chunks.map (fun c => c.chunk_id))
        (transform_dolphin_to_oxcart_preserving_labels cfgC8 inputC8)
      = .ok ["doc:001:5-5:0".data, "doc:001:5-5:0".data] ∧
    ¬ (["doc:001:5-5:0".data, "doc:001:5-5:0".data] : List Str).Nodup := by
  constructor
  · with_unfolding_all decide
  · decide

/-- C8 (witness): the id-format theorem applied at a concrete one-footnote
input. -/
theorem C8_chunk_id_format_witness :
    transform_dolphin_to_oxcart_preserving_labels cfgC8 inputC8w = .ok docC8w ∧
    ∀ c ∈ docC8w.chunks, IsPipelineChunkId cfgC8.doc_id c.chunk_id :=
  ⟨by with_unfolding_all rfl,
   C8_chunk_id_format cfgC8 inputC8w docC8w (by with_unfolding_all rfl)⟩

/-- The head of a `dropWhile` result fails the predicate. -/
theorem dropWhile_head_not (p : Char → Bool) :
    ∀ (l : Str) (c : Char) (rest : Str), l.dropWhile p = c :: rest → p c = false := by
  intro l
  induction l with
  | nil => intro c rest h; cases h
  | cons a as ih =>
      intro c rest h
      rw [List.dropWhile_cons] at h
      split at h
      · exact ih c rest h
      · rename_i hpa
        cases h
        simpa using hpa

/-- A non-empty stripped string starts with a non-space character. -/
theorem pyStrip_head_not_space (s : Str) (c : Char) (rest : Str)
    (h : pyStrip s = c :: rest) : pyIsSpace c = false := by
  have hpre : pyStrip s <+: s.dropWhile pyIsSpace := by
    unfold pyStrip
    have hsuf : (s.dropWhile pyIsSpace).reverse.dropWhile pyIsSpace
        <:+ (s.dropWhile pyIsSpace).reverse := List.dropWhile_suffix _
    have h2 := List.reverse_prefix.mpr hsuf
    simpa using h2
  obtain ⟨t, ht⟩ := hpre
  rw [h] at ht
  exact dropWhile_head_not pyIsSpace s c (rest ++ t) ht.symm

/-- Stripping a string whose head is non-space gives a non-empty result. -/
theorem pyStrip_ne_nil_of_head (c : Char) (rest : Str) (hc : pyIsSpace c = false) :
    ¬ (pyStrip (c :: rest) = []) := by
  intro h
  unfold pyStrip at h
  rw [List.dropWhile_cons, if_neg (by simp [hc])] at h
  rw [List.reverse_eq_nil_iff, List.dropWhile_eq_nil_iff] at h
  have hcm := h c (by simp)
  rw [hc] at hcm
  cases hcm

/-- Every cell kept by `rowCells` strips to a non-empty string. -/
theorem rowCells_strip_ne (t : Nat) (r : Str) (m : Str) (hm : m ∈ rowCells t r) :
    ¬ (pyStrip m = []) := by
  unfold rowCells at hm
  rw [List.mem_filter] at hm
  obtain ⟨hmem, hne⟩ := hm
  rw [List.mem_map] at hmem
  obtain ⟨cell, hcell, hmeq⟩ := hmem
  cases hM : m with
  | nil =>
      rw [hM] at hne
      simp at hne
  | cons c rest =>
      have hex : ∃ r2, pyStrip (stripTags cell) = c :: r2 := by
        cases hS : pyStrip (stripTags cell) with
        | nil =>
            rw [hS] at hmeq
            simp at hmeq
            rw [hmeq] at hM
            cases hM
        | cons d r2 =>
            cases t with
            | zero =>
                rw [hS] at hmeq
                simp at hmeq
                rw [hmeq] at hM
                cases hM
            | succ t2 =>
                rw [hS, List.take_succ_cons] at hmeq
                rw [hM] at hmeq
                injection hmeq with h1 h2
                exact ⟨r2, by rw [h1]⟩
      obtain ⟨r2, hr2⟩ := hex
      have hcns : pyIsSpace c = false := pyStrip_head_not_space (stripTags cell) c r2 hr2
      exact pyStrip_ne_nil_of_head c rest hcns

/-- The number of usable cells of a row does not depend on the (positive)
truncation length. -/
theorem rowCells_length_eq (r : Str) :
    (rowCells 80 r).length = (rowCells 100 r).length := by
  unfold rowCells
  rw [List.filter_map, List.filter_map, List.length_map, List.length_map]
  congr 1
  apply List.filter_congr
  intro cell hcell
  simp only [Function.comp_apply]
  cases hx : pyStrip (stripTags cell) with
  | nil => rfl
  | cons d r2 => rfl

/-- The two truncations agree on row emptiness. -/
theorem rowCells_nil_iff (r : Str) : rowCells 80 r = [] ↔ rowCells 100 r = [] := by
  constructor
  · intro h
    have := rowCells_length_eq r
    rw [h] at this
    exact List.length_eq_zero.mp this.symm
  · intro h
    have := rowCells_length_eq r
    rw [h] at this
    exact List.length_eq_zero.mp this

/-- A row kept by the simplifier is kept by the fallback parser. -/
theorem simpRow_isSome_fbRow (i : Nat) (r : Str) (h : (simpRow i r).isSome = true) :
    (fbRow r).isSome = true := by
  unfold simpRow at h
  unfold fbRow
  dsimp only at h ⊢
  split at h
  · rename_i hc
    rw [if_pos ⟨fun he => hc.1 ((rowCells_nil_iff r).mpr he), by
      have := rowCells_length_eq r
      omega⟩]
    rfl
  · cases h

/-- The length of a `filterMap` counts the kept elements. -/
theorem filterMap_length_countP {α β : Type} (f : α → Option β) :
    ∀ l : List α, (l.filterMap f).length = l.countP (fun a => (f a).isSome) := by
  intro l
  induction l with
  | nil => rfl
  | cons a as ih =>
      rw [List.filterMap_cons, List.countP_cons]
      cases hfa : f a with
      | none => simp [hfa, ih]
      | some b => simp [hfa, ih]

/-- The simplifier's enumerated row filter counts rows independently of the
running index. -/
theorem enum_filterMap_simpRow_length :
    ∀ (l : List Str) (n : Nat),
      ((List.enumFrom n l).filterMap (fun ri => simpRow ri.1 ri.2)).length
        = l.countP (fun r => (simpRow 1 r).isSome) := by
  intro l
  induction l with
  | nil => intro n; rfl
  | cons a as ih =>
      intro n
      rw [show List.enumFrom n (a :: as) = (n, a) :: List.enumFrom (n + 1) as from rfl]
      rw [List.filterMap_cons, List.countP_cons]
      have hiso : ∀ i j : Nat, (simpRow i a).isSome = (simpRow j a).isSome := by
        intro i j
        unfold simpRow
        dsimp only
        split
        · split <;> split <;> rfl
        · rfl
      cases hfa : simpRow n a with
      | none =>
          have h1 : (simpRow 1 a).isSome = false := by rw [hiso 1 n, hfa]; rfl
          simp [hfa, h1, ih]
      | some b =>
          have h1 : (simpRow 1 a).isSome = true := by rw [hiso 1 n, hfa]; rfl
          simp [hfa, h1, ih]

/-- The simplifier keeps at most as many rows as the fallback parser. -/
theorem simplified_le_simple_rows (rows : List Str) :
    ((rows.take 20).enum.filterMap (fun ri => simpRow ri.1 ri.2)).length
      ≤ ((rows.take 50).filterMap fbRow).length := by
  rw [filterMap_length_countP fbRow]
  rw [show (rows.take 20).enum = List.enumFrom 0 (rows.take 20) from rfl]
  rw [enum_filterMap_simpRow_length (rows.take 20) 0]
  calc (rows.take 20).countP (fun r => (simpRow 1 r).isSome)
      ≤ (rows.take 20).countP (fun r => (fbRow r).isSome) := by
        apply List.countP_mono_left
        intro r hr h
        exact simpRow_isSome_fbRow 1 r h
    _ ≤ (rows.take 50).countP (fun r => (fbRow r).isSome) := by
        have hsub : List.Sublist (rows.take 20) (rows.take 50) := by
          rw [show rows.take 20 = (rows.take 50).take 20 by rw [List.take_take]; norm_num]
          exact List.take_sublist _ _
        exact hsub.countP_le _

/-- When the fallback parser keeps fewer than two rows, the simplifier
renders fewer than two lines and returns the empty string. -/
theorem simplify_empty_of_few (html : Str)
    (hfew : (((findTrRows html).take 50).filterMap fbRow).length < 2) :
    simplify_html_table html = [] := by
  unfold simplify_html_table
  split
  · rfl
  · dsimp only
    split
    · rfl
    · have hle := simplified_le_simple_rows (findTrRows html)
      rw [if_neg (by omega)]

/-- When the fallback parser keeps at least two rows, the first kept row is
non-empty and its first cell strips to a non-empty string. -/
theorem simple_rows_head_ok (rows : List Str)
    (hlen : 2 ≤ ((rows.take 50).filterMap fbRow).length) :
    ∃ m ms, ((rows.take 50).filterMap fbRow).headD [] = m :: ms ∧
      ¬ (pyStrip m = []) := by
  cases hsr : (rows.take 50).filterMap fbRow with
  | nil => rw [hsr] at hlen; simp at hlen
  | cons r0 rs =>
      have hr0 : r0 ∈ (rows.take 50).filterMap fbRow := by
        rw [hsr]
        exact List.mem_cons_self _ _
      rw [List.mem_filterMap] at hr0
      obtain ⟨row, hrow, hfb⟩ := hr0
      unfold fbRow at hfb
      dsimp only at hfb
      split at hfb
      · rename_i hcond
        cases hfb
        cases hrc : rowCells 100 row with
        | nil => exact absurd hrc hcond.1
        | cons m ms2 =>
            refine ⟨m, ms2, rfl, ?_⟩
            exact rowCells_strip_ne 100 row m (by rw [hrc]; exact List.mem_cons_self _ _)
      · cases hfb

/-- A fallback result without a TSV is the empty result. -/
theorem tableFallback_tsv_none_empty (ct : Option Str) (html : Str)
    (h : (tableFallback ct html).tsv = none) : tableFallback ct html = emptyConv := by
  unfold tableFallback at h ⊢
  dsimp only at h ⊢
  by_cases h1 : (findTrRows html).length > 50
  · rw [if_pos h1]
  · rw [if_neg h1] at h ⊢
    by_cases h2 : (((findTrRows html).take 50).filterMap fbRow).length < 2
    · rw [if_pos h2]
    · rw [if_neg h2] at h ⊢
      split at h
      · rename_i h3
        split
        · rfl
        · rename_i h3x
          exact absurd h3 h3x
      · exact absurd h (by simp)

/-- When the fallback parser rejects a table (no TSV), the simplifier also
finds nothing usable. -/
theorem tableFallback_tsv_none_simplify (ct : Option Str) (html : Str)
    (h : (tableFallback ct html).tsv = none) : simplify_html_table html = [] := by
  unfold tableFallback at h
  dsimp only at h
  by_cases h1 : (findTrRows html).length > 50
  · unfold simplify_html_table
    split
    · rfl
    · dsimp only
      rw [if_pos (Or.inr h1)]
  · rw [if_neg h1] at h
    by_cases h2 : (((findTrRows html).take 50).filterMap fbRow).length < 2
    · exact simplify_empty_of_few html h2
    · rw [if_neg h2] at h
      exfalso
      obtain ⟨m, ms, hhead, hmne⟩ := simple_rows_head_ok (findTrRows html) (by omega)
      split at h
      · rename_i h3
        rcases h3 with h3 | h3
        · rw [hhead] at h3
          have ht : (m :: ms).take 10 = m :: ms.take 9 := rfl
          rw [ht] at h3
          cases h3
        · rw [hhead] at h3
          have ht : (m :: ms).take 10 = m :: ms.take 9 := rfl
          rw [ht] at h3
          have hall := List.all_eq_true.mp h3 m (List.mem_cons_self _ _)
          exact hmne (of_decide_eq_true hall)
      · exact absurd h (by simp)

/-- A conversion result without a TSV is the empty result, and in that case
the simplifier also returns the empty string. -/
theorem conv_tsv_none (oracle : PandasOracle) (html : Str)
    (h : (table_to_md_tsv_and_sentences oracle html none).tsv = none) :
    table_to_md_tsv_and_sentences oracle html none = emptyConv ∧
      (¬ validate_html_table html = true ∨ simplify_html_table html = []) := by
  unfold table_to_md_tsv_and_sentences at h ⊢
  by_cases hv : ¬ validate_html_table html
  · rw [if_pos hv]
    exact ⟨rfl, Or.inl (by simpa using hv)⟩
  · rw [if_neg hv] at h ⊢
    cases ho : oracle html with
    | none =>
        rw [ho] at h
        exact ⟨tableFallback_tsv_none_empty none html h,
          Or.inr (tableFallback_tsv_none_simplify none html h)⟩
    | some df =>
        rw [ho] at h
        dsimp only at h ⊢
        by_cases hd1 : df.rows.length > 100 ∨ df.cols.length > 25
        · rw [if_pos hd1] at h ⊢
          exact ⟨tableFallback_tsv_none_empty none html h,
            Or.inr (tableFallback_tsv_none_simplify none html h)⟩
        · rw [if_neg hd1] at h ⊢
          by_cases hd2 : (df.cols.map (fun c => c.take 50)).length = 0 ∨
              (df.cols.map (fun c => c.take 50)).all (fun x => pyStrip x = [])
          · rw [if_pos hd2] at h ⊢
            exact ⟨tableFallback_tsv_none_empty none html h,
              Or.inr (tableFallback_tsv_none_simplify none html h)⟩
          · rw [if_neg hd2] at h
            exact absurd h (by simp)

/-- The emission step skips a table whose selected representation is the
empty simplified text. -/
theorem processTabEmit_skip (cfg : Config) (pno ro : ℤ) (bn : Option Box) (conv : ConvResult) :
    processTabEmit cfg pno ro bn conv "simplified_html".data [] = .ok ([], []) := by
  unfold processTabEmit
  rw [if_pos ⟨rfl, rfl⟩]

/-- C7: for every configuration (hence every pandas behaviour) and every tab
element text that passes validation but whose conversion has no markdown and
no TSV, the simplifier fallback is selected but necessarily empty — the
fallback parser and the simplifier reject the same tables — so all three
representations are empty and the element is skipped.  The claim's
"if the simplified text is non-empty it emits a simplified_html table chunk"
is vacuously true: that case cannot occur. -/
theorem C7_table_fallback (cfg : Config) (pno ro : ℤ) (bn : Option Box) (txt : Str)
    (hval : validate_html_table txt = true)
    (hmd : (table_to_md_tsv_and_sentences cfg.pandas txt none).markdown = none)
    (htsv : (table_to_md_tsv_and_sentences cfg.pandas txt none).tsv = none) :
    simplify_html_table txt = [] ∧ processTab cfg pno ro bn txt = .ok ([], []) := by
  obtain ⟨hconv, hsim⟩ := conv_tsv_none cfg.pandas txt htsv
  have hsimp : simplify_html_table txt = [] := by
    rcases hsim with h | h
    · exact absurd hval h
    · exact h
  refine ⟨hsimp, ?_⟩
  unfold processTab
  by_cases h1 : txt = [] ∨ (pyStrip txt).length < 30
  · rw [if_pos h1]
  · rw [if_neg h1]
    by_cases h2 : txt.length > 50000
    · rw [if_pos h2]
    · rw [if_neg h2]
      rw [if_neg (not_not_intro hval)]
      dsimp only
      rw [hconv, hsimp]
      exact processTabEmit_skip cfg pno ro bn emptyConv

/-- C7 (witness): the fallback theorem at a two-row table with empty cells,
which passes validation while both parsers find nothing usable. -/
theorem C7_table_fallback_witness :
    validate_html_table htmlC7 = true ∧
    simplify_html_table htmlC7 = [] ∧ processTab {} 1 1 none htmlC7 = .ok ([], []) :=
  ⟨by decide, C7_table_fallback {} 1 1 none htmlC7 (by decide) (by decide) (by decide)⟩
